import Mathlib

/-!
Verification development for the PC-BASIC interpreter core
(`codestream.py`, `interpreter.py`, `statements.py`).

Bytes are modelled as `Nat` (Python 2 byte strings), a code stream as an
immutable byte list together with a cursor position, and the interpreter
state as an explicit structure.  Python lists used as stacks (`append` /
`pop` / `[-1]`) are modelled as Lean lists with the *top at the head*:
`append` is `cons`, `stack[-d-1]` is `get d`, `stack[:len-d]` is `drop d`.
Fallible operations return `Except RunErr` or a `State × Option RunErr`
pair (the latter when the source mutates state before re-raising).
-/

namespace PCBasic

/-- Runtime error signal: an error code and an optional position,
mirroring `error.RunError(err, pos)`. -/
structure RunErr where
  err : Nat
  pos : Option Int := none
deriving Repr, DecidableEq

/-- Modelled from the spec: dialect error codes (`error.py` is not under
`src/`); values are the classic GW-BASIC codes the spec's taxonomy names. -/
def NEXT_WITHOUT_FOR : Nat := 1
def STX : Nat := 2
def RETURN_WITHOUT_GOSUB : Nat := 3
def OUT_OF_DATA : Nat := 4
def IFC : Nat := 5
def UNDEFINED_LINE_NUMBER : Nat := 8
def DIVISION_BY_ZERO : Nat := 11
def TYPE_MISMATCH : Nat := 13
def NO_RESUME : Nat := 19
def RESUME_WITHOUT_ERROR : Nat := 20
def FOR_WITHOUT_NEXT : Nat := 26
def WHILE_WITHOUT_WEND : Nat := 29
def WEND_WITHOUT_WHILE : Nat := 30

/-- Modelled from the spec: dialect keyword-token constants (`tokens.py`
is not under `src/`): line-marker byte 0, statement separator `:`,
the comment-introducer `REM` token, and the single-byte keyword tokens
used by the execution engine.  Exact values are the legacy dialect's. -/
def qUOTE : Nat := 34
def cOLON : Nat := 58
def tok_FOR : Nat := 130
def tok_NEXT : Nat := 131
def tok_DATA : Nat := 132
def tok_GOTO : Nat := 137
def tok_GOSUB : Nat := 141
def tok_REM : Nat := 143
def tok_ELSE : Nat := 161
def tok_WHILE : Nat := 177
def tok_WEND : Nat := 178
def tok_THEN : Nat := 207

/-- Modelled from the spec: `tk.END_STATEMENT` is the line-marker byte,
end-of-buffer and `:`; end-of-buffer (`''`) is handled separately by the
stream model, so the byte set is `{0, ':'}`. -/
def END_STATEMENT : List Nat := [0, cOLON]

/-- Modelled from the spec: `tk.END_LINE` is the line-marker byte
(end-of-buffer handled separately). -/
def END_LINE : List Nat := [0]

/-- Modelled from the spec: `tk.PLUS_BYTES` gives the number of trailing
bytes of each numeric-literal lead token (octal, hex, line pointers,
byte, int, single, double). -/
def plusBytes (c : Nat) : Nat :=
  if c = 11 then 2 else if c = 12 then 2 else if c = 13 then 2
  else if c = 14 then 2 else if c = 15 then 1 else if c = 28 then 2
  else if c = 29 then 4 else if c = 31 then 8 else 0

/-- Membership in `tk.PLUS_BYTES` (`c in tk.PLUS_BYTES`). -/
def isPlusByte (c : Nat) : Bool :=
  c = 11 ∨ c = 12 ∨ c = 13 ∨ c = 14 ∨ c = 15 ∨ c = 28 ∨ c = 29 ∨ c = 31

/-- Whitespace set `CodeStream.blanks = ' \t\n'`. -/
def isBlank (b : Nat) : Bool := b = 32 ∨ b = 9 ∨ b = 10

/-- ASCII separator control bytes absorbed by `_read_dec` (`\x1c\x1d\x1f`). -/
def isSep (b : Nat) : Bool := b = 28 ∨ b = 29 ∨ b = 31

/-- ASCII decimal digit test (`string.digits`). -/
def isDigit (b : Nat) : Bool := 48 ≤ b ∧ b ≤ 57

/-- ASCII letter test (`string.ascii_letters`). -/
def isLetter (b : Nat) : Bool := (65 ≤ b ∧ b ≤ 90) ∨ (97 ≤ b ∧ b ≤ 122)

/-- Python `str.upper` on one byte. -/
def upperB (b : Nat) : Nat := if 97 ≤ b ∧ b ≤ 122 then b - 32 else b

/-- Modelled from the spec: `tk.NAME_CHARS` - letters, digits and periods. -/
def isNameChar (b : Nat) : Bool := isLetter b ∨ isDigit b ∨ b = 46

/-- Modelled from the spec: the type-sigil characters `%&!#$`. -/
def isSigil (b : Nat) : Bool := b = 37 ∨ b = 38 ∨ b = 33 ∨ b = 35 ∨ b = 36

/-- A `CodeStream` (`io.BytesIO` subclass): an immutable byte buffer and
a cursor position.  `read` past the end returns a short result. -/
structure CodeStream where
  data : List Nat
  pos : Nat
deriving Repr, DecidableEq

namespace CodeStream

/-- Bytes remaining at and after the cursor. -/
def rest (s : CodeStream) : List Nat := s.data.drop s.pos

/-- Read exactly one byte, or nothing at end of buffer (`read(1)` giving `''`). -/
def read1 (s : CodeStream) : Option Nat × CodeStream :=
  match s.rest.head? with
  | some b => (some b, { s with pos := s.pos + 1 })
  | none => (none, s)

/-- Read up to `n` bytes (`read(n)`; short read at end of buffer). -/
def readN (s : CodeStream) (n : Nat) : List Nat × CodeStream :=
  let bs := s.rest.take n
  (bs, { s with pos := s.pos + bs.length })

/-- Peek one byte without moving (`peek()`). -/
def peek1 (s : CodeStream) : Option Nat := s.rest.head?

/-- Relative backward seek (`seek(-k, 1)`). -/
def seekBack (s : CodeStream) (k : Nat) : CodeStream := { s with pos := s.pos - k }

/-- Absolute seek (`seek(p)`). -/
def seekTo (s : CodeStream) (p : Nat) : CodeStream := { s with pos := p }

/-- Seek to end of buffer (`seek(0, 2)`). -/
def seekEnd (s : CodeStream) : CodeStream := { s with pos := s.data.length }

/-- Count of leading whitespace bytes of a list. -/
def leadBlanks (l : List Nat) : Nat := (l.takeWhile (fun b => isBlank b)).length

/-- Skip whitespace then read the next byte (`skip_blank_read` for `n = 1`). -/
def skip_blank_read (s : CodeStream) : Option Nat × CodeStream :=
  let k := leadBlanks s.rest
  read1 { s with pos := s.pos + k }

/-- Skip whitespace then peek the next byte (`skip_blank` for `n = 1`):
the whitespace is consumed, the peeked byte is not. -/
def skip_blank (s : CodeStream) : Option Nat × CodeStream :=
  let k := leadBlanks s.rest
  ({ s with pos := s.pos + k }.peek1, { s with pos := s.pos + k })

/-- Skip whitespace, then read the next byte if it lies in `in_range`
(`skip_blank_read_if` for `n = 1`). -/
def skip_blank_read_if (s : CodeStream) (in_range : List Nat) : Option Nat × CodeStream :=
  let (d, s1) := s.skip_blank
  match d with
  | some b => if b ∈ in_range then (some b, { s1 with pos := s1.pos + 1 }) else (none, s1)
  | none => (none, s1)

/-- Loop of `read_to`: accumulate bytes until end of buffer or a byte in
`findrange`, leaving the found byte unconsumed. -/
def readToLoop (findrange : List Nat) : Nat → CodeStream → List Nat → List Nat × CodeStream
  | 0, s, out => (out, s)
  | fuel + 1, s, out =>
    match s.read1 with
    | (none, s1) => (out, s1)
    | (some b, s1) =>
      if b ∈ findrange then (out, s1.seekBack 1)
      else readToLoop findrange fuel s1 (out ++ [b])

/-- Read until a byte of `findrange` is found (`read_to`). -/
def read_to (s : CodeStream) (findrange : List Nat) : List Nat × CodeStream :=
  readToLoop findrange (s.data.length + 1) s []

/-- Read a string literal (`read_string`): a leading quote, bytes up to a
closing quote or line end (the closing quote optional), delimiters kept. -/
def read_string (s : CodeStream) : List Nat × CodeStream :=
  match s.read1 with
  | (none, s1) => ([], s1)
  | (some b, s1) =>
    if b ≠ qUOTE then ([], s1.seekBack 1)
    else
      let (mid, s2) := s1.read_to (qUOTE :: END_LINE)
      match s2.read1 with
      | (some d, s3) =>
        if d = qUOTE then (qUOTE :: mid ++ [qUOTE], s3)
        else (qUOTE :: mid, s3.seekBack 1)
      | (none, s3) => (qUOTE :: mid, s3)

end CodeStream

/-- True when the last character of the accumulated word is `E` or `D`
(`word[-1] in 'ED'`; characters in `word` are already upper-cased). -/
def lastED (w : List Nat) : Bool :=
  match w.getLast? with
  | some x => x = 69 ∨ x = 68
  | none => false

/-- The `ELSE`/`EQV` protection test: `self.peek().upper() in ('L', 'Q')`
applied to the remaining bytes after the `E`. -/
def peekLQ (t : List Nat) : Bool :=
  match t.head? with
  | some p => upperB p = 76 ∨ upperB p = 81
  | none => false

/-- Loop of `CodeStream._read_dec` over the remaining bytes.  Returns the
accumulated word (upper-cased, as appended by the source) and the net
number of bytes consumed (a final `seek(-1, 1)` cancels the last read). -/
def readDecLoop : Nat → List Nat → Bool → Bool → List Nat → List Nat × Nat
  | 0, _, _, _, word => (word, 0)
  | _ + 1, [], _, _, word => (word, 0)
  | fuel + 1, b :: t, have_exp, have_point, word =>
    let c := upperB b
    if c = 46 ∧ ¬have_point ∧ ¬have_exp then
      let (w, k) := readDecLoop fuel t have_exp true (word ++ [c])
      (w, k + 1)
    else if (c = 69 ∨ c = 68) ∧ ¬have_exp then
      if c = 69 ∧ peekLQ t then (word, 0)
      else
        let (w, k) := readDecLoop fuel t true have_point (word ++ [c])
        (w, k + 1)
    else if (c = 43 ∨ c = 45) ∧ (word = [] ∨ lastED word) then
      let (w, k) := readDecLoop fuel t have_exp have_point (word ++ [c])
      (w, k + 1)
    else if isDigit c ∨ isBlank c ∨ isSep c then
      let (w, k) := readDecLoop fuel t have_exp have_point (word ++ [c])
      (w, k + 1)
    else if (c = 33 ∨ c = 35) ∧ ¬have_exp then (word ++ [c], 1)
    else if c = 37 then (word, 1)
    else (word, 0)

/-- Python `rstrip(blanks)` on a byte list: drop the longest run of
trailing whitespace. -/
def rstripB : List Nat → List Nat
  | [] => []
  | b :: t =>
    let r := rstripB t
    if r = [] ∧ isBlank b then [] else b :: r

/-- Python `lstrip(blanks)` on a byte list. -/
def lstripB (l : List Nat) : List Nat := l.dropWhile (fun b => isBlank b)

/-- Python `strip(blanks)` on a byte list. -/
def stripB (l : List Nat) : List Nat := lstripB (rstripB l)

/-- Read a decimal literal (`CodeStream._read_dec`): run the absorption
loop, give back trailing whitespace (`rstrip` + relative seek), and
return `trimword.strip(blanks)`. -/
def read_dec (s : CodeStream) : List Nat × CodeStream :=
  let l := s.rest
  let (word, k) := readDecLoop (l.length + 1) l false false []
  let trimword := rstripB word
  (stripB trimword, { s with pos := s.pos + k - (word.length - trimword.length) })


/-- Bytes of a list all satisfy `isDigit`. -/
def allDigits (l : List Nat) : Bool := l.all (fun b => isDigit b)

theorem upperB_of_digit {b : Nat} (h : isDigit b = true) : upperB b = b := by
  simp only [isDigit, decide_eq_true_eq] at h
  simp only [upperB, if_neg (by omega : ¬(97 ≤ b ∧ b ≤ 122))]

theorem rstripB_of_no_blank {l : List Nat} (h : ∀ b ∈ l, isBlank b = false) :
    rstripB l = l := by
  induction l with
  | nil => rfl
  | cons b t ih =>
    have hb : isBlank b = false := h b (List.mem_cons_self _ _)
    have ht := ih (fun x hx => h x (List.mem_cons_of_mem _ hx))
    simp [rstripB, ht, hb]

theorem lstripB_of_no_blank {l : List Nat} (h : ∀ b ∈ l, isBlank b = false) :
    lstripB l = l := by
  cases l with
  | nil => rfl
  | cons b t => simp [lstripB, List.dropWhile_cons, h b (List.mem_cons_self _ _)]

theorem stripB_of_no_blank {l : List Nat} (h : ∀ b ∈ l, isBlank b = false) :
    stripB l = l := by
  rw [stripB, rstripB_of_no_blank h, lstripB_of_no_blank h]

theorem blank_false_of_digit {b : Nat} (h : isDigit b = true) : isBlank b = false := by
  simp only [isDigit, decide_eq_true_eq] at h
  simp only [isBlank, decide_eq_false_iff_not]
  omega

/-- A run of decimal digits is absorbed by the `_read_dec` loop without
changing the flags: the digits are appended to the word and the scan
continues on the remainder. -/
theorem readDecLoop_digits (ds : List Nat) :
    ∀ (fuel : Nat) (r w : List Nat) (he hp : Bool), allDigits ds = true →
      readDecLoop (ds.length + fuel) (ds ++ r) he hp w =
        ((readDecLoop fuel r he hp (w ++ ds)).1,
          (readDecLoop fuel r he hp (w ++ ds)).2 + ds.length) := by
  induction ds with
  | nil => intro fuel r w he hp _; simp
  | cons d ds ih =>
    intro fuel r w he hp hall
    simp only [allDigits, List.all_cons, Bool.and_eq_true] at hall
    obtain ⟨hd, hds⟩ := hall
    have hd' : 48 ≤ d ∧ d ≤ 57 := by
      simpa only [isDigit, decide_eq_true_eq] using hd
    have hcons : (d :: ds).length + fuel = (ds.length + fuel) + 1 := by
      simp [List.length_cons]; omega
    rw [hcons, List.cons_append]
    have h46 : ¬(d = 46 ∧ ¬hp = true ∧ ¬he = true) := by rintro ⟨h, -⟩; omega
    have hED : ¬((d = 69 ∨ d = 68) ∧ ¬he = true) := by rintro ⟨h | h, -⟩ <;> omega
    have hpm : ¬((d = 43 ∨ d = 45) ∧ (w = [] ∨ lastED w = true)) := by
      rintro ⟨h | h, -⟩ <;> omega
    have hdig : (isDigit d = true ∨ isBlank d = true ∨ isSep d = true) :=
      Or.inl hd
    simp only [readDecLoop, upperB_of_digit hd, if_neg h46, if_neg hED, if_neg hpm,
      if_pos hdig]
    rw [ih fuel r (w ++ [d]) he hp (by simpa [allDigits] using hds)]
    have harr : (w ++ [d]) ++ ds = w ++ d :: ds := by simp
    simp only [harr, List.length_cons, Nat.add_assoc]

/-- Claim C10: `read_string` at a position whose next character is not a
double quote (including end of buffer) returns the empty string and
leaves the stream unchanged. -/
theorem read_string_no_quote (s : CodeStream) (h : s.peek1 ≠ some qUOTE) :
    CodeStream.read_string s = ([], s) := by
  unfold CodeStream.read_string CodeStream.read1
  cases hh : s.rest.head? with
  | none => simp
  | some b =>
    have hb : b ≠ qUOTE := by
      intro e
      exact h (by rw [CodeStream.peek1, hh, e])
    simp [hb, CodeStream.seekBack, Nat.add_sub_cancel]

/-- Witness for C10 at a concrete stream starting with a letter. -/
theorem read_string_no_quote_witness :
    CodeStream.peek1 ⟨[65, 66], 0⟩ ≠ some qUOTE ∧
      CodeStream.read_string ⟨[65, 66], 0⟩ = ([], ⟨[65, 66], 0⟩) :=
  ⟨by decide, read_string_no_quote ⟨[65, 66], 0⟩ (by decide)⟩

theorem no_blank_of_allDigits {l : List Nat} (h : allDigits l = true) :
    ∀ b ∈ l, isBlank b = false := fun b hb =>
  blank_false_of_digit (List.all_eq_true.mp h b hb)

/-- Counterexample to claim C9 as stated: in `1E5!` the lexer encounters
`!` after an exponent marker; the returned token is `1E5` - the `!` is
neither included as the last character nor consumed from the stream. -/
theorem read_dec_suffix_counterexample :
    read_dec ⟨[49, 69, 53, 33], 0⟩ = ([49, 69, 53], ⟨[49, 69, 53, 33], 3⟩) ∧
      ([49, 69, 53] : List Nat).getLast? ≠ some 33 := by
  decide

/-- Claim C9 (amended): while no exponent marker has been read, a `%`
terminates the decimal literal and is consumed but excluded from the
token, and `!`/`#` terminate it and are included as its last character;
after an exponent marker, `!`/`#` terminate the literal without being
consumed or included. -/
theorem read_dec_suffix_handling (ds es t : List Nat)
    (hds : allDigits ds = true) (hes : allDigits es = true) :
    read_dec ⟨ds ++ 37 :: t, 0⟩ = (ds, ⟨ds ++ 37 :: t, ds.length + 1⟩) ∧
      read_dec ⟨ds ++ 33 :: t, 0⟩ = (ds ++ [33], ⟨ds ++ 33 :: t, ds.length + 1⟩) ∧
      read_dec ⟨ds ++ 35 :: t, 0⟩ = (ds ++ [35], ⟨ds ++ 35 :: t, ds.length + 1⟩) ∧
      read_dec ⟨ds ++ 69 :: (es ++ 33 :: t), 0⟩ =
        (ds ++ 69 :: es, ⟨ds ++ 69 :: (es ++ 33 :: t), ds.length + 1 + es.length⟩) := by
  have hnb : ∀ b ∈ ds, isBlank b = false := no_blank_of_allDigits hds
  refine ⟨?_, ?_, ?_, ?_⟩
  · simp only [read_dec, CodeStream.rest, List.drop_zero]
    rw [show (ds ++ 37 :: t).length + 1 = ds.length + (t.length + 2) by simp; omega]
    rw [readDecLoop_digits ds (t.length + 2) (37 :: t) [] false false hds]
    have h1 : readDecLoop (t.length + 2) (37 :: t) false false ds = (ds, 1) := by
      norm_num [readDecLoop, upperB, isDigit, isBlank, isSep]
    simp only [List.nil_append]
    rw [h1]
    simp [rstripB_of_no_blank hnb, stripB_of_no_blank hnb]
    omega
  · simp only [read_dec, CodeStream.rest, List.drop_zero]
    rw [show (ds ++ 33 :: t).length + 1 = ds.length + (t.length + 2) by simp; omega]
    rw [readDecLoop_digits ds (t.length + 2) (33 :: t) [] false false hds]
    have h1 : readDecLoop (t.length + 2) (33 :: t) false false ds = (ds ++ [33], 1) := by
      norm_num [readDecLoop, upperB, isDigit, isBlank, isSep]
    simp only [List.nil_append]
    rw [h1]
    have hnb2 : ∀ b ∈ ds ++ [33], isBlank b = false := by
      intro b hb
      rcases List.mem_append.mp hb with h | h
      · exact hnb b h
      · simp only [List.mem_singleton] at h; subst h; decide
    simp [rstripB_of_no_blank hnb2, stripB_of_no_blank hnb2]
    omega
  · simp only [read_dec, CodeStream.rest, List.drop_zero]
    rw [show (ds ++ 35 :: t).length + 1 = ds.length + (t.length + 2) by simp; omega]
    rw [readDecLoop_digits ds (t.length + 2) (35 :: t) [] false false hds]
    have h1 : readDecLoop (t.length + 2) (35 :: t) false false ds = (ds ++ [35], 1) := by
      norm_num [readDecLoop, upperB, isDigit, isBlank, isSep]
    simp only [List.nil_append]
    rw [h1]
    have hnb2 : ∀ b ∈ ds ++ [35], isBlank b = false := by
      intro b hb
      rcases List.mem_append.mp hb with h | h
      · exact hnb b h
      · simp only [List.mem_singleton] at h; subst h; decide
    simp [rstripB_of_no_blank hnb2, stripB_of_no_blank hnb2]
    omega
  · simp only [read_dec, CodeStream.rest, List.drop_zero]
    rw [show (ds ++ 69 :: (es ++ 33 :: t)).length + 1
        = ds.length + (es.length + t.length + 3) by simp; omega]
    rw [readDecLoop_digits ds (es.length + t.length + 3) (69 :: (es ++ 33 :: t)) []
      false false hds]
    have hpeek : peekLQ (es ++ 33 :: t) = false := by
      cases es with
      | nil => norm_num [peekLQ, upperB]
      | cons e es' =>
        have he : isDigit e = true := List.all_eq_true.mp hes e (List.mem_cons_self _ _)
        have he' : 48 ≤ e ∧ e ≤ 57 := by simpa [isDigit] using he
        simp only [List.cons_append, peekLQ, List.head?_cons]
        rw [upperB_of_digit he]
        simp only [Bool.or_eq_false_iff, decide_eq_false_iff_not]
        omega
    have h2 : readDecLoop (es.length + t.length + 3) (69 :: (es ++ 33 :: t)) false false ds
        = (ds ++ 69 :: es, es.length + 1) := by
      rw [show es.length + t.length + 3 = (es.length + (t.length + 2)) + 1 by omega]
      simp only [readDecLoop, show upperB 69 = 69 by decide, hpeek]
      norm_num
      rw [readDecLoop_digits es (t.length + 2) (33 :: t) (ds ++ [69]) true false hes]
      have h3 : readDecLoop (t.length + 2) (33 :: t) true false ((ds ++ [69]) ++ es)
          = ((ds ++ [69]) ++ es, 0) := by
        norm_num [readDecLoop, upperB, isDigit, isBlank, isSep]
      rw [h3]
      simp [List.append_assoc]
    have hnb2 : ∀ b ∈ ds ++ 69 :: es, isBlank b = false := by
      intro b hb
      rcases List.mem_append.mp hb with h | h
      · exact hnb b h
      · rcases List.mem_cons.mp h with h | h
        · subst h; decide
        · exact blank_false_of_digit (List.all_eq_true.mp hes b h)
    simp only [List.nil_append]
    rw [h2]
    simp [rstripB_of_no_blank hnb2, stripB_of_no_blank hnb2]
    omega

/-- Witness for the amended C9 theorem at `1%2`, `1!2`, `1#2` and `1E5!`. -/
theorem read_dec_suffix_handling_witness :
    allDigits [49] = true ∧
      read_dec ⟨[49, 37, 50], 0⟩ = ([49], ⟨[49, 37, 50], 2⟩) ∧
      read_dec ⟨[49, 33, 50], 0⟩ = ([49, 33], ⟨[49, 33, 50], 2⟩) := by
  have h := read_dec_suffix_handling [49] [53] [50] (by decide) (by decide)
  exact ⟨by decide, by simpa using h.1, by simpa using h.2.1⟩

/-- Loop of `TokenisedStream.skip_to` over the remaining bytes: returns
the number of bytes consumed before the scan stops (the final
`seek(-1, 1)` before a break leaves the found byte unconsumed).
`literal` and `rem` are the in-string and in-comment suppression flags,
`bofc` is `break_on_first_char`.  A line marker whose offset field is
short or blank ends the scan; other markers carry 4 trailing bytes, and
numeric-literal lead tokens carry their `PLUS_BYTES` payload. -/
def skipToCount (findrange : List Nat) : Nat → List Nat → Bool → Bool → Bool → Nat
  | 0, _, _, _, _ => 0
  | _ + 1, [], _, _, _ => 0
  | fuel + 1, c :: t, literal, rem, bofc =>
    let literal1 := if c = qUOTE then !literal else literal
    let rem1 := if c ≠ qUOTE ∧ c = tok_REM then true else rem
    let literal2 := if c ≠ qUOTE ∧ c ≠ tok_REM ∧ c = 0 then false else literal1
    let rem2 := if c ≠ qUOTE ∧ c ≠ tok_REM ∧ c = 0 then false else rem1
    if literal2 = true ∨ rem2 = true then
      skipToCount findrange fuel t literal2 rem2 bofc + 1
    else if c ∈ findrange ∧ bofc = true then 0
    else if c = 0 then
      let off := t.take 2
      if off.length < 2 ∨ off = [0, 0] then off.length + 1
      else ((t.drop 2).take 2).length + 3 + skipToCount findrange fuel (t.drop 4) false rem2 true
    else if isPlusByte c = true then
      (t.take (plusBytes c)).length + 1 +
        skipToCount findrange fuel (t.drop (plusBytes c)) literal2 rem2 true
    else skipToCount findrange fuel t literal2 rem2 true + 1

/-- Stream wrapper for `TokenisedStream.skip_to`. -/
def CodeStream.skip_to (s : CodeStream) (findrange : List Nat) (bofc : Bool) : CodeStream :=
  { s with pos := s.pos + skipToCount findrange (s.rest.length + 1) s.rest false false bofc }

/-- Stream wrapper for `TokenisedStream.skip_to_read`. -/
def CodeStream.skip_to_read (s : CodeStream) (findrange : List Nat) : Option Nat × CodeStream :=
  (s.skip_to findrange true).read1

/-- Inner comma loop of `TokenisedStream.skip_block` (the `allow_comma`
part handling `NEXT I, J`): returns the number of bytes consumed and
`none` when the scan returns from `skip_block` entirely, or
`some stack` when the loop exits normally and hands the (possibly
decremented) nesting counter back to the outer loop. -/
def skipBlockCommaCount : Nat → List Nat → Int → Nat × Option Int
  | 0, _, stack => (0, some stack)
  | fuel + 1, l, stack =>
    let bl := CodeStream.leadBlanks l
    let l1 := l.drop bl
    match l1.head? with
    | none => (bl, some stack)
    | some d =>
      if d ∈ END_STATEMENT then (bl, some stack)
      else
        let n := skipToCount (END_STATEMENT ++ [44]) (l1.length + 1) l1 false false true
        let l2 := l1.drop n
        match l2.head? with
        | some c =>
          if c = 44 then
            if stack > 0 then
              let kr := skipBlockCommaCount fuel (l2.drop 1) (stack - 1)
              (bl + n + 1 + kr.1, kr.2)
            else (bl + n, none)
          else
            let kr := skipBlockCommaCount fuel l2 stack
            (bl + n + kr.1, kr.2)
        | none =>
          let kr := skipBlockCommaCount fuel l2 stack
          (bl + n + kr.1, kr.2)

/-- Loop of `TokenisedStream.skip_block` over the remaining bytes:
returns the number of bytes consumed before the scan stops at the
matching terminator.  `stack` is the nesting counter.  A line marker
(`c = 0`) carries a 4-byte trail whose short or blank offset ends the
scan; for any other stopping byte the trail is empty and the scan goes
straight to the statement's first keyword. -/
def skipBlockCount (forc nextc : Nat) (allow_comma : Bool) : Nat → List Nat → Int → Nat
  | 0, _, _ => 0
  | fuel + 1, l, stack =>
    let n := skipToCount (END_STATEMENT ++ [tok_THEN, tok_ELSE]) (l.length + 1) l false false true
    let l1 := l.drop n
    match l1.head? with
    | none => n
    | some c =>
      let trail := if c = 0 then (l1.drop 1).take 4 else []
      if c = 0 ∧ (trail.length < 2 ∨ trail.take 2 = [0, 0]) then n + 1 + trail.length
      else
        let l2 := l1.drop (1 + trail.length)
        let bl := CodeStream.leadBlanks l2
        let l3 := l2.drop bl
        match l3.head? with
        | none => n + 1 + trail.length + bl
        | some d =>
          if d = forc then
            n + 1 + trail.length + bl + 1 +
              skipBlockCount forc nextc allow_comma fuel (l3.drop 1) (stack + 1)
          else if d = nextc then
            if stack ≤ 0 then n + 1 + trail.length + bl
            else if allow_comma then
              let kr := skipBlockCommaCount fuel (l3.drop 1) (stack - 1)
              match kr.2 with
              | none => n + 1 + trail.length + bl + 1 + kr.1
              | some stack2 =>
                n + 1 + trail.length + bl + 1 + kr.1 +
                  skipBlockCount forc nextc allow_comma fuel ((l3.drop 1).drop kr.1) stack2
            else
              n + 1 + trail.length + bl + 1 +
                skipBlockCount forc nextc allow_comma fuel (l3.drop 1) (stack - 1)
          else n + 1 + trail.length + bl + skipBlockCount forc nextc allow_comma fuel l3 stack

/-- Stream wrapper for `TokenisedStream.skip_block`. -/
def CodeStream.skip_block (s : CodeStream) (for_char next_char : Nat) (allow_comma : Bool) :
    CodeStream :=
  { s with pos :=
      s.pos + skipBlockCount for_char next_char allow_comma (s.rest.length + 1) s.rest 0 }

/-- Upper-case a whole name (`name.upper()`). -/
def upperName (l : List Nat) : List Nat := l.map upperB

/-- Accumulation loop of `read_name`: `d` has just been read; while it is
a name character it is appended and the next byte read; the first
non-name byte selects the optional trailing sigil or is pushed back. -/
def readNameLoop : Nat → CodeStream → List Nat → List Nat × CodeStream
  | 0, s, name => (upperName (name.take 40), s)
  | fuel + 1, s, name =>
    match s.read1 with
    | (none, s1) => (upperName (name.take 40), s1)
    | (some d, s1) =>
      if isNameChar d then readNameLoop fuel s1 (name ++ [d])
      else
        let name := name.take 40
        if isSigil d then (upperName (name ++ [d]), s1)
        else (upperName name, s1.seekBack 1)

/-- Read a variable name (`CodeStream.read_name`): leading letter, name
characters, 40-character truncation, optional trailing sigil,
upper-cased result. -/
def CodeStream.read_name (s : CodeStream) : List Nat × CodeStream :=
  match s.skip_blank_read with
  | (none, s1) => ([], s1)
  | (some b, s1) =>
    if ¬ isLetter b then ([], s1.seekBack 1)
    else readNameLoop (s1.data.length + 1) s1 [b]

/-- Modelled from the spec: `memory.complete_name` appends the default
type sigil (`!`, single precision) when the name carries none. -/
def complete_name (name : List Nat) : List Nat :=
  match name.getLast? with
  | some b => if isSigil b then name else name ++ [33]
  | none => name ++ [33]

/-- Parse a scalar name (`StatementParser.parse_name`): `read_name`, a
syntax error when empty, then sigil completion. -/
def parse_name (s : CodeStream) : Except RunErr (List Nat × CodeStream) :=
  let (name, s1) := s.read_name
  if name = [] then .error ⟨STX, none⟩ else .ok (complete_name name, s1)

/-- A FOR-loop stack entry: the counter variable (standing for the
scalar `view`), stop and step values, cached step sign, and the cached
offsets of the statement after the FOR clause and just after the
matching NEXT's variable.  Numeric values are modelled as integers (the
`%` integer instance of the `values` classes: `gt` is `>`, `iadd` is
`+`, `sign()` is `Int.sign`). -/
structure Frame where
  varname : List Nat
  stop : Int
  step : Int
  sgn : Int
  forpos : Nat
  nextpos : Nat
deriving Repr, DecidableEq

/-- Interpreter state (`Interpreter` fields, plus the narrow interfaces
of external collaborators: `line_numbers` for the program's line-number
index, `scalars` for the variable store, `events_active`,
`suspend_all` and `stopped_events` for the event pump).  Stacks keep
their top at the head. -/
structure InterpState where
  run_mode : Bool
  program : CodeStream
  direct : CodeStream
  current_statement : Nat
  error_handle_mode : Bool
  error_resume : Option (Nat × Bool)
  on_error : Option Nat
  error_num : Nat
  error_pos : Int
  suspend_all : Bool
  events_active : Bool
  stopped_events : List Nat
  gosub_stack : List (Nat × Bool × Option Nat)
  for_stack : List Frame
  while_stack : List (Nat × Nat)
  line_numbers : List (Nat × Nat)
  data_pos : Nat
  scalars : List (List Nat × Int)
  stop_cont : Option Nat
deriving Repr, DecidableEq

namespace InterpState

/-- The current codestream (`get_codestream`). -/
def get_codestream (st : InterpState) : CodeStream :=
  if st.run_mode then st.program else st.direct

/-- Write back the current codestream. -/
def put_codestream (st : InterpState) (s : CodeStream) : InterpState :=
  if st.run_mode then { st with program := s } else { st with direct := s }

/-- Line-number index lookup (`program.line_numbers[jumpnum]`). -/
def lookupLine (st : InterpState) (n : Nat) : Option Nat :=
  (st.line_numbers.find? (fun p => p.1 = n)).map Prod.snd

/-- Scalar store read (`scalars.view` / the counter view's value). -/
def scalarGet (st : InterpState) (name : List Nat) : Int :=
  ((st.scalars.find? (fun p => p.1 = name)).map Prod.snd).getD 0

/-- Scalar store update at the list level (`scalars.set`). -/
def setScalar (l : List (List Nat × Int)) (name : List Nat) (v : Int) :
    List (List Nat × Int) :=
  if l.any (fun p => p.1 = name) then
    l.map (fun p => if p.1 = name then (name, v) else p)
  else (name, v) :: l

/-- Scalar store write (`scalars.set`, also the view's in-place `iadd`). -/
def scalarSet (st : InterpState) (name : List Nat) (v : Int) : InterpState :=
  { st with scalars := setScalar st.scalars name v }

/-- Set run mode and reposition the then-current codestream
(`set_pointer`); with no position the stream is positioned at its end.
Event activation follows the run mode (`events.set_active`); the sound
and cassette side effects are external. -/
def set_pointer (st : InterpState) (new_runmode : Bool) (pos : Option Nat) : InterpState :=
  let st := { st with run_mode := new_runmode, events_active := new_runmode }
  let s := st.get_codestream
  st.put_codestream (match pos with | some p => s.seekTo p | none => s.seekEnd)

/-- Initialise error trapping (`init_error_trapping`). -/
def init_error_trapping (st : InterpState) : InterpState :=
  { st with error_handle_mode := false, error_resume := none, on_error := none }

/-- Clear the loop stacks (`clear_loop_stacks`). -/
def clear_loop_stacks (st : InterpState) : InterpState :=
  { st with for_stack := [], while_stack := [] }

/-- Clear loop and jump stacks (`clear_stacks`). -/
def clear_stacks (st : InterpState) : InterpState :=
  clear_loop_stacks { st with gosub_stack := [] }

/-- Clear all to be cleared for the CLEAR statement (`Interpreter.clear`):
last error number and position, error trapping, event trapping
(external), the FOR and WHILE loop stacks, and the DATA pointer. -/
def clear (st : InterpState) : InterpState :=
  let st := { st with error_num := 0, error_pos := 0 }
  let st := st.init_error_trapping
  let st := st.clear_loop_stacks
  { st with data_pos := 0 }

/-- Execute a jump for GOTO or RUN (`jump`): `none` restarts the program,
otherwise the target line is resolved through the line-number index and
an undefined line raises. -/
def jump (st : InterpState) (jumpnum : Option Nat)
    (err : Nat := UNDEFINED_LINE_NUMBER) : Except RunErr InterpState :=
  match jumpnum with
  | none => .ok (st.set_pointer true (some 0))
  | some n =>
    match st.lookupLine n with
    | some p => .ok (st.set_pointer true (some p))
    | none => .error ⟨err, none⟩

/-- Execute a jump for GOSUB (`jump_sub`): record the return position,
jump, then push the return frame.  Note the frame's run-mode field reads
`self.run_mode` after the jump has already switched to run mode. -/
def jump_sub (st : InterpState) (jumpnum : Option Nat) (handler : Option Nat) :
    Except RunErr InterpState :=
  let pos := st.get_codestream.pos
  match st.jump jumpnum with
  | .error e => .error e
  | .ok st1 =>
    .ok { st1 with gosub_stack := (pos, st1.run_mode, handler) :: st1.gosub_stack }

/-- Execute a RETURN (`return_`): pop a frame (empty stack is a control
error), un-stop an event handler's event, then either resume at the
recorded position in the recorded run mode and skip to the end of the
statement, or jump to the explicit line. -/
def return_ (st : InterpState) (jumpnum : Option Nat) : Except RunErr InterpState :=
  match st.gosub_stack with
  | [] => .error ⟨RETURN_WITHOUT_GOSUB, none⟩
  | (pos, orig_runmode, handler) :: restStack =>
    let st := { st with gosub_stack := restStack }
    let st :=
      match handler with
      | some ev => { st with stopped_events := st.stopped_events.erase ev }
      | none => st
    match jumpnum with
    | none =>
      let st1 := st.set_pointer orig_runmode (some pos)
      .ok (st1.put_codestream (st1.get_codestream.skip_to END_STATEMENT true))
    | some n => st.jump n

/-- Handle a BASIC error through trapping (`trap_error`): record number
and position; when a nonzero trap target is set and no handler is
already active, save the resume context, jump to the trap line, set the
handling flag and suspend event dispatch; otherwise clear the handling
flag, halt, and re-raise (the second component). -/
def trap_error (st : InterpState) (e : RunErr) : InterpState × Option RunErr :=
  let p : Int :=
    match e.pos with
    | some q => q
    | none => if st.run_mode then (st.program.pos : Int) - 1 else -1
  let st := { st with error_num := e.err, error_pos := p }
  let trapping : Bool :=
    match st.on_error with
    | some n => n ≠ 0 ∧ ¬ st.error_handle_mode
    | none => false
  if trapping then
    let st1 := { st with error_resume := some (st.current_statement, st.run_mode) }
    match st1.jump st.on_error with
    | .ok st2 => ({ st2 with error_handle_mode := true, suspend_all := true }, none)
    | .error e2 => (st1, some e2)
  else
    (({ st with error_handle_mode := false }).set_pointer false none, some ⟨e.err, some p⟩)

/-- Argument of RESUME: none/zero, NEXT, or an explicit line. -/
inductive ResumeArg where
  | rnone : ResumeArg
  | rnext : ResumeArg
  | rline : Nat → ResumeArg
deriving Repr, DecidableEq

/-- Resume program flow after an error trap (`resume_`): without a saved
resume context, unset the handler and raise; otherwise clear the error
state, the handling flag, the resume context, re-enable event
dispatch, and reposition per the argument. -/
def resume_ (st : InterpState) (w : ResumeArg) : InterpState × Option RunErr :=
  match st.error_resume with
  | none => ({ st with on_error := some 0 }, some ⟨RESUME_WITHOUT_ERROR, none⟩)
  | some (start_statement, runmode) =>
    let st := { st with error_num := 0, error_handle_mode := false,
                        error_resume := none, suspend_all := false }
    match w with
    | .rnone => (st.set_pointer runmode (some start_statement), none)
    | .rnext =>
      let st1 := st.set_pointer runmode (some start_statement)
      (st1.put_codestream (st1.get_codestream.skip_to END_STATEMENT false), none)
    | .rline n =>
      match st.jump (some n) with
      | .ok st1 => (st1, none)
      | .error e => (st, some e)

/-- Loop of `on_jump_`: `i` is the last enumeration index handed out
(initially `-1`); at index `onvar - 1` the jump or subroutine call is
performed and the rest of the list is never consumed; running out of
targets with `i = onvar - 2` is a syntax error. -/
def onJumpLoop (st : InterpState) (onvar : Int) (jump_type : Nat) :
    List Nat → Int → Except RunErr InterpState
  | [], i => if i = onvar - 2 then .error ⟨STX, none⟩ else .ok st
  | jumpnum :: restNums, i =>
    let i1 := i + 1
    if i1 = onvar - 1 then
      if jump_type = tok_GOTO then st.jump (some jumpnum)
      else if jump_type = tok_GOSUB then st.jump_sub (some jumpnum) none
      else .ok st
    else onJumpLoop st onvar jump_type restNums i1

/-- ON GOTO / ON GOSUB calculated jump (`on_jump_`): range-check the
selector into [0, 255] (an illegal-function-call error otherwise), then
run the enumeration loop over the parsed jump targets. -/
def on_jump_ (st : InterpState) (onvar : Int) (jump_type : Nat) (jumpnums : List Nat) :
    Except RunErr InterpState :=
  if onvar < 0 ∨ 255 < onvar then .error ⟨IFC, none⟩
  else onJumpLoop st onvar jump_type jumpnums (-1)

end InterpState

/-- Helper for FOR (`_find_next`): from the position just after the FOR
clause, locate the matching NEXT via `skip_block`, require a NEXT (or a
comma inside an enclosing NEXT list), read the optional variable name
after it, and return the offset of the statement after the FOR clause
together with the offset just after the NEXT's variable.  The source
re-seeks the stream to `endforpos` before returning; callers continue
from the unchanged input stream. -/
def find_next (ins : CodeStream) (varname : List Nat) : Except RunErr (Nat × Nat) :=
  let endforpos := ins.pos
  let s1 := ins.skip_block tok_FOR tok_NEXT true
  let (d, s2) := s1.skip_blank
  if ¬ (d = some tok_NEXT ∨ d = some 44) then .error ⟨FOR_WITHOUT_NEXT, none⟩
  else
    let (c, s3) := s2.read1
    let comma := c = some 44
    let (d2, s4) := s3.skip_blank
    let inEnd : Bool :=
      match d2 with
      | none => true
      | some b => b ∈ END_STATEMENT
    if inEnd then
      if comma then .error ⟨NEXT_WITHOUT_FOR, none⟩
      else .ok (endforpos, s4.pos)
    else
      match parse_name s4 with
      | .error e => .error e
      | .ok (varname2, s5) =>
        if varname2 ≠ varname then .error ⟨NEXT_WITHOUT_FOR, none⟩
        else .ok (endforpos, s5.pos)

namespace InterpState

/-- The frame-matching loop of `iterate_loop`: scan the FOR stack from
the innermost frame outwards for one whose cached NEXT offset equals
`pos`; on a match return that frame and the frames below it (the frames
above are the dangling ones that get discarded). -/
def findForFrame (pos : Nat) : List Frame → Option (Frame × List Frame)
  | [] => none
  | f :: below => if f.nextpos = pos then some (f, below) else findForFrame pos below

/-- Iterate a loop (`iterate_loop`): match the innermost FOR frame whose
cached NEXT offset equals the current position, discarding dangling
frames above it (no match is a control error); increment the counter by
the step through the scalar view, test exhaustion with the sign-aware
comparison, pop on completion, else reposition to just after the FOR
clause.  The variable name NEXT passes along is unused
(`dummy_varname`). -/
def iterate_loop (st : InterpState) (dummy_varname : Option (List Nat)) :
    Except RunErr (InterpState × Bool) :=
  let pos := st.get_codestream.pos
  match findForFrame pos st.for_stack with
  | none => .error ⟨NEXT_WITHOUT_FOR, none⟩
  | some (frame, below) =>
    let st := { st with for_stack := frame :: below }
    let newval := st.scalarGet frame.varname + frame.step
    let st := st.scalarSet frame.varname newval
    let loop_ends := if frame.sgn > 0 then newval > frame.stop else frame.stop > newval
    if loop_ends then .ok ({ st with for_stack := below }, false)
    else .ok (st.put_codestream (st.get_codestream.seekTo frame.forpos), true)

/-- Initialise a FOR loop (`for_`), on the integer instance of the value
classes: reject string and double counters, default the step to 1,
locate the matching NEXT once, initialise the counter, push the loop
frame, and - when the loop can never run - jump just past the matching
NEXT and perform one iterate step immediately. -/
def for_ (st : InterpState) (varname : List Nat) (start stop : Int)
    (stepOpt : Option Int) : InterpState × Option RunErr :=
  let vartype := varname.getLastD 0
  if vartype = 36 ∨ vartype = 35 then (st, some ⟨TYPE_MISMATCH, none⟩)
  else
    let step := stepOpt.getD 1
    match find_next st.get_codestream varname with
    | .error e => (st, some e)
    | .ok (forpos, nextpos) =>
      let st := st.scalarSet varname start
      let st := { st with for_stack :=
        ⟨varname, stop, step, step.sign, forpos, nextpos⟩ :: st.for_stack }
      if (if step.sign > 0 then start > stop else stop > start) then
        let st := st.put_codestream (st.get_codestream.seekTo nextpos)
        match st.iterate_loop none with
        | .ok (st1, _) => (st1, none)
        | .error e => (st, some e)
      else (st, none)

/-- Iterate a loop for NEXT (`next_`): try each (ignored) variable name
in turn, stopping as soon as an iteration re-enters a loop body. -/
def next_ (st : InterpState) : List (Option (List Nat)) → Except RunErr InterpState
  | [] => .ok st
  | v :: restNames =>
    match st.iterate_loop v with
    | .error e => .error e
    | .ok (st1, b) => if b then .ok st1 else next_ st1 restNames

end InterpState

/-- A minimal concrete interpreter state for concrete executions. -/
def baseState : InterpState :=
  { run_mode := false, program := ⟨[], 0⟩, direct := ⟨[], 0⟩,
    current_statement := 0, error_handle_mode := false, error_resume := none,
    on_error := none, error_num := 0, error_pos := 0, suspend_all := false,
    events_active := false, stopped_events := [], gosub_stack := [],
    for_stack := [], while_stack := [], line_numbers := [], data_pos := 0,
    scalars := [], stop_cont := none }

/-- Counterexample to claim C8 as stated: `Interpreter.clear` (the CLEAR
statement's interpreter-side effect) leaves the GOSUB stack untouched -
a pushed return frame survives it. -/
theorem clear_keeps_gosub_counterexample :
    (InterpState.clear { baseState with gosub_stack := [(7, true, none)] }).gosub_stack
        = [(7, true, none)] ∧
      ([(7, true, none)] : List (Nat × Bool × Option Nat)) ≠ [] :=
  ⟨rfl, by decide⟩

/-- Claim C8 (amended): executing CLEAR clears the FOR and WHILE loop
stacks and the error-trap state (trap target unset, handling flag and
resume context cleared, last error number and position zeroed) and
resets the DATA cursor to program start, while the GOSUB stack is left
unchanged (it is cleared by `clear_stacks` on program reset, not by
CLEAR). -/
theorem clear_clears_loops_trap_data (st : InterpState) :
    (st.clear).for_stack = [] ∧ (st.clear).while_stack = [] ∧
      (st.clear).on_error = none ∧ (st.clear).error_handle_mode = false ∧
      (st.clear).error_resume = none ∧ (st.clear).error_num = 0 ∧
      (st.clear).error_pos = 0 ∧ (st.clear).data_pos = 0 ∧
      (st.clear).gosub_stack = st.gosub_stack :=
  ⟨rfl, rfl, rfl, rfl, rfl, rfl, rfl, rfl, rfl⟩

/-- Start state for the GOSUB/RETURN run-mode evaluation: direct mode,
direct-line cursor at offset 2, and a program with line 100 at offset 5. -/
def gosubBugStart : InterpState :=
  { baseState with
      run_mode := false,
      direct := ⟨[141, 14, 100, 0, 32], 2⟩,
      program := ⟨[65, 66, 67, 68, 69, 58, 70], 0⟩,
      line_numbers := [(100, 5)] }

/-- The GOSUB at direct-line offset 2 followed immediately by a RETURN
with no argument. -/
def gosubBugRun : Except RunErr InterpState :=
  match InterpState.jump_sub gosubBugStart (some 100) none with
  | .ok st1 => InterpState.return_ st1 none
  | .error e => .error e

/-- Claim C2 fails on the code: a GOSUB executed in direct mode (run
mode `false`) at offset 2 pushes a frame whose run-mode field reads
`self.run_mode` after `jump` has already switched to run mode, so it
records `true`; the immediately following RETURN therefore restores run
mode `true` and repositions the program stream at offset 2 (then skips
to the end of the statement, landing at 5), instead of resuming the
direct line in run mode `false`. -/
theorem gosub_return_direct_mode_bug :
    gosubBugStart.run_mode = false ∧
      (InterpState.jump_sub gosubBugStart (some 100) none).toOption.map
          (fun st => st.gosub_stack) = some [(2, true, none)] ∧
      gosubBugRun.toOption.map (fun st => (st.run_mode, st.program.pos, st.direct.pos))
        = some (true, 5, 2) := by
  decide

theorem findForFrame_none {pos : Nat} {l : List Frame}
    (h : ∀ f ∈ l, f.nextpos ≠ pos) : InterpState.findForFrame pos l = none := by
  induction l with
  | nil => rfl
  | cons f below ih =>
    simp only [InterpState.findForFrame, if_neg (h f (List.mem_cons_self _ _))]
    exact ih (fun g hg => h g (List.mem_cons_of_mem _ hg))

theorem findForFrame_match {pos : Nat} {above : List Frame} {frame : Frame}
    {below : List Frame} (ha : ∀ f ∈ above, f.nextpos ≠ pos)
    (hf : frame.nextpos = pos) :
    InterpState.findForFrame pos (above ++ frame :: below) = some (frame, below) := by
  induction above with
  | nil => simp [InterpState.findForFrame, hf]
  | cons g above ih =>
    simp only [List.cons_append, InterpState.findForFrame,
      if_neg (ha g (List.mem_cons_self _ _))]
    exact ih (fun f hf' => ha f (List.mem_cons_of_mem _ hf'))

theorem put_codestream_for_stack (st : InterpState) (s : CodeStream) :
    (st.put_codestream s).for_stack = st.for_stack := by
  unfold InterpState.put_codestream
  split <;> rfl

/-- Claim C4: NEXT matching is positional, not by name.  The name NEXT
passes is ignored entirely; when no frame's cached NEXT offset equals
the current position the iteration raises NEXT WITHOUT FOR; and when
the stack splits as `above ++ frame :: below` with every frame of
`above` mismatching and `frame` matching the current position, the
dangling frames `above` are discarded: the resulting stack is
`frame :: below` when the loop re-enters its body, `below` when it
ends. -/
theorem next_matches_by_position (st : InterpState) :
    (∀ v, st.iterate_loop v = st.iterate_loop none) ∧
      ((∀ f ∈ st.for_stack, f.nextpos ≠ st.get_codestream.pos) →
        st.iterate_loop none = .error ⟨NEXT_WITHOUT_FOR, none⟩) ∧
      (∀ above frame below, st.for_stack = above ++ frame :: below →
        (∀ f ∈ above, f.nextpos ≠ st.get_codestream.pos) →
        frame.nextpos = st.get_codestream.pos →
        ∃ st1 b, st.iterate_loop none = .ok (st1, b) ∧
          st1.for_stack = if b then frame :: below else below) := by
  refine ⟨fun v => rfl, ?_, ?_⟩
  · intro h
    simp only [InterpState.iterate_loop, findForFrame_none h]
  · intro above frame below hsplit ha hf
    simp only [InterpState.iterate_loop, hsplit, findForFrame_match ha hf]
    by_cases hend :
        (if frame.sgn > 0
         then ({ st with for_stack := frame :: below } : InterpState).scalarGet frame.varname
                + frame.step > frame.stop
         else frame.stop >
              ({ st with for_stack := frame :: below } : InterpState).scalarGet frame.varname
                + frame.step)
    · rw [if_pos hend]
      exact ⟨_, false, rfl, rfl⟩
    · rw [if_neg hend]
      refine ⟨_, true, rfl, ?_⟩
      rw [put_codestream_for_stack]
      rfl

/-- Concrete state for the C4 witness: two live FOR frames, the inner
one dangling (its cached NEXT offset 9 does not match the cursor), the
outer one matching the cursor position 5. -/
def nextMatchState : InterpState :=
  { baseState with
      direct := ⟨[0, 0, 0, 0, 0, 58], 5⟩,
      for_stack := [⟨[74, 33], 10, 1, 1, 2, 9⟩, ⟨[73, 33], 0, 1, 1, 1, 5⟩] }

/-- Witness for C4: the dangling inner frame is discarded and the outer
frame (matched by position, though its variable name differs from any
name a NEXT might carry) is iterated. -/
theorem next_matches_by_position_witness :
    ∃ st1 b, nextMatchState.iterate_loop none = .ok (st1, b) ∧
      st1.for_stack = if b then [⟨[73, 33], 0, 1, 1, 1, 5⟩] else [] :=
  (next_matches_by_position nextMatchState).2.2 [⟨[74, 33], 10, 1, 1, 2, 9⟩]
    ⟨[73, 33], 0, 1, 1, 1, 5⟩ [] rfl (by decide) (by decide)

/-- Claim C1: with a nonzero trap target set, no handler active and the
target line defined, a trapped runtime error saves the resume context
(statement start offset, run mode), jumps to the trap target line, sets
the handling flag and suspends asynchronous event dispatch; a
subsequent RESUME with no argument repositions execution at the saved
statement start in the saved run mode, clears the handling flag and the
resume context, and re-enables event dispatch. -/
theorem trap_resume_roundtrip (st : InterpState) (e : RunErr) (n tgt : Nat)
    (hn : st.on_error = some n) (hn0 : n ≠ 0) (hh : st.error_handle_mode = false)
    (ht : st.lookupLine n = some tgt) :
    (st.trap_error e).2 = none ∧
      (st.trap_error e).1.run_mode = true ∧
      (st.trap_error e).1.program.pos = tgt ∧
      (st.trap_error e).1.error_handle_mode = true ∧
      (st.trap_error e).1.suspend_all = true ∧
      (st.trap_error e).1.error_resume = some (st.current_statement, st.run_mode) ∧
      ((st.trap_error e).1.resume_ .rnone).2 = none ∧
      ((st.trap_error e).1.resume_ .rnone).1.run_mode = st.run_mode ∧
      ((st.trap_error e).1.resume_ .rnone).1.get_codestream.pos = st.current_statement ∧
      ((st.trap_error e).1.resume_ .rnone).1.error_handle_mode = false ∧
      ((st.trap_error e).1.resume_ .rnone).1.error_resume = none ∧
      ((st.trap_error e).1.resume_ .rnone).1.suspend_all = false := by
  have ht' : (List.find? (fun p => p.1 = n) st.line_numbers).map Prod.snd = some tgt := ht
  cases hrm : st.run_mode <;>
    simp [InterpState.trap_error, InterpState.resume_, InterpState.jump,
      InterpState.set_pointer, InterpState.get_codestream, InterpState.put_codestream,
      InterpState.lookupLine, CodeStream.seekTo, hn, hn0, hh, ht', hrm]

/-- Concrete state for the C1 witness: trap target line 100 at offset 4,
an error raised at statement start 7 in run mode. -/
def trapState : InterpState :=
  { baseState with
      run_mode := true,
      program := ⟨[0, 100, 0, 58, 62, 58, 0, 58], 7⟩,
      current_statement := 7,
      on_error := some 100,
      line_numbers := [(100, 4)] }

/-- Witness for C1 at a concrete division-by-zero error. -/
theorem trap_resume_roundtrip_witness :
    (trapState.trap_error ⟨DIVISION_BY_ZERO, none⟩).2 = none ∧
      (trapState.trap_error ⟨DIVISION_BY_ZERO, none⟩).1.program.pos = 4 ∧
      (trapState.trap_error ⟨DIVISION_BY_ZERO, none⟩).1.error_resume = some (7, true) ∧
      ((trapState.trap_error ⟨DIVISION_BY_ZERO, none⟩).1.resume_ .rnone).1.run_mode = true ∧
      ((trapState.trap_error
          ⟨DIVISION_BY_ZERO, none⟩).1.resume_ .rnone).1.get_codestream.pos = 7 := by
  have h := trap_resume_roundtrip trapState ⟨DIVISION_BY_ZERO, none⟩ 100 4
    (by decide) (by decide) (by decide) (by decide)
  exact ⟨h.1, h.2.2.1, h.2.2.2.2.2.1, by rw [h.2.2.2.2.2.2.2.1]; rfl, h.2.2.2.2.2.2.2.2.1⟩

theorem onJumpLoop_hit (st : InterpState) (onvar : Int) (jt : Nat) :
    ∀ (k : Nat) (nums : List Nat) (i : Int) (m : Nat),
      nums.get? k = some m → i + 1 + k = onvar - 1 →
      InterpState.onJumpLoop st onvar jt nums i =
        (if jt = tok_GOTO then st.jump (some m)
         else if jt = tok_GOSUB then st.jump_sub (some m) none else .ok st) := by
  intro k
  induction k with
  | zero =>
    intro nums i m hget hi
    cases nums with
    | nil => simp at hget
    | cons x rest =>
      simp only [List.get?_cons_zero, Option.some.injEq] at hget
      subst hget
      simp only [InterpState.onJumpLoop]
      rw [if_pos (by omega)]
  | succ k ih =>
    intro nums i m hget hi
    cases nums with
    | nil => simp at hget
    | cons x rest =>
      simp only [List.get?_cons_succ] at hget
      simp only [InterpState.onJumpLoop]
      rw [if_neg (by push_cast at hi ⊢; omega)]
      exact ih rest (i + 1) m hget (by push_cast at hi ⊢; omega)

theorem onJumpLoop_miss (st : InterpState) (onvar : Int) (jt : Nat) :
    ∀ (nums : List Nat) (i : Int),
      (onvar - 1 < i + 1 ∨ i + nums.length < onvar - 1) →
      InterpState.onJumpLoop st onvar jt nums i =
        (if i + (nums.length : Int) = onvar - 2 then .error ⟨STX, none⟩ else .ok st) := by
  intro nums
  induction nums with
  | nil =>
    intro i h
    simp [InterpState.onJumpLoop]
  | cons x rest ih =>
    intro i h
    have hlen : ((x :: rest).length : Int) = (rest.length : Int) + 1 := by
      push_cast [List.length_cons]
      ring
    simp only [InterpState.onJumpLoop]
    rw [if_neg (show ¬(i + 1 = onvar - 1) by omega)]
    rw [ih (i + 1) (by omega)]
    rw [show i + 1 + (rest.length : Int) = i + ((x :: rest).length : Int) by omega]

/-- Claim C5: ON n GOTO/GOSUB raises an illegal-function-call error for a
selector outside [0, 255]; for 1 <= n <= number of listed targets it
jumps (or subroutine-calls) to the n-th target; for n exactly one past
the list it raises a syntax error; for any other in-range n (zero, or
more than one past the last target) it performs no jump and raises no
error. -/
theorem on_jump_spec (st : InterpState) (onvar : Int) (jt : Nat) (nums : List Nat) :
    ((onvar < 0 ∨ 255 < onvar) → st.on_jump_ onvar jt nums = .error ⟨IFC, none⟩) ∧
      (∀ (k m : Nat), 0 ≤ onvar → onvar ≤ 255 → onvar = (k : Int) + 1 →
        nums.get? k = some m →
        st.on_jump_ onvar jt nums =
          (if jt = tok_GOTO then st.jump (some m)
           else if jt = tok_GOSUB then st.jump_sub (some m) none else .ok st)) ∧
      (0 ≤ onvar → onvar ≤ 255 → onvar = (nums.length : Int) + 1 →
        st.on_jump_ onvar jt nums = .error ⟨STX, none⟩) ∧
      (0 ≤ onvar → onvar ≤ 255 → (onvar = 0 ∨ (nums.length : Int) + 1 < onvar) →
        st.on_jump_ onvar jt nums = .ok st) := by
  refine ⟨?_, ?_, ?_, ?_⟩
  · intro h
    rw [InterpState.on_jump_, if_pos h]
  · intro k m h0 h255 hov hget
    rw [InterpState.on_jump_, if_neg (by omega)]
    exact onJumpLoop_hit st onvar jt k nums (-1) m hget (by omega)
  · intro h0 h255 hov
    rw [InterpState.on_jump_, if_neg (by omega)]
    rw [onJumpLoop_miss st onvar jt nums (-1) (by right; omega)]
    rw [if_pos (by omega)]
  · intro h0 h255 hcase
    rw [InterpState.on_jump_, if_neg (by omega)]
    rw [onJumpLoop_miss st onvar jt nums (-1)
      (by rcases hcase with h | h
          · left; omega
          · right; omega)]
    rw [if_neg (by rcases hcase with h | h <;> omega)]

/-- Concrete state for the C5 witness: lines 10, 20, 30 defined. -/
def onJumpState : InterpState :=
  { baseState with
      run_mode := true,
      program := ⟨[58, 58, 58, 58, 58, 58, 58, 58, 58, 58, 58, 58, 58], 0⟩,
      line_numbers := [(10, 3), (20, 8), (30, 12)] }

/-- Witness for C5 on the spec's scenario: `ON 2 GOTO 10,20,30` jumps to
line 20, `ON 5 GOTO 10,20,30` falls through, `ON 4 GOTO 10,20,30` is a
syntax error, and an out-of-range selector is an illegal function call. -/
theorem on_jump_spec_witness :
    onJumpState.on_jump_ 2 tok_GOTO [10, 20, 30] = onJumpState.jump (some 20) ∧
      onJumpState.on_jump_ 5 tok_GOTO [10, 20, 30] = .ok onJumpState ∧
      onJumpState.on_jump_ 4 tok_GOTO [10, 20, 30] = .error ⟨STX, none⟩ ∧
      onJumpState.on_jump_ 300 tok_GOTO [10, 20, 30] = .error ⟨IFC, none⟩ := by
  refine ⟨?_, ?_, ?_, ?_⟩
  · have h := (on_jump_spec onJumpState 2 tok_GOTO [10, 20, 30]).2.1 1 20
      (by norm_num) (by norm_num) (by norm_num) rfl
    simpa using h
  · exact (on_jump_spec onJumpState 5 tok_GOTO [10, 20, 30]).2.2.2
      (by norm_num) (by norm_num) (by norm_num)
  · exact (on_jump_spec onJumpState 4 tok_GOTO [10, 20, 30]).2.2.1
      (by norm_num) (by norm_num) (by norm_num)
  · exact (on_jump_spec onJumpState 300 tok_GOTO [10, 20, 30]).1 (by norm_num)

theorem find?_setScalar (l : List (List Nat × Int)) (name : List Nat) (v : Int) :
    List.find? (fun p => p.1 = name) (InterpState.setScalar l name v) = some (name, v) := by
  rw [InterpState.setScalar]
  by_cases ha : l.any (fun p => p.1 = name)
  · rw [if_pos ha]
    induction l with
    | nil => simp at ha
    | cons q l ih =>
      simp only [List.map_cons]
      by_cases hq : q.1 = name
      · simp [List.find?, hq]
      · have ha' : l.any (fun p => p.1 = name) = true := by
          simpa [List.any_cons, hq] using ha
        simp [List.find?, hq, ih ha']
  · rw [if_neg ha]
    simp [List.find?]

theorem scalarGet_set (st : InterpState) (name : List Nat) (v : Int) :
    (st.scalarSet name v).scalarGet name = v := by
  simp [InterpState.scalarSet, InterpState.scalarGet, find?_setScalar]

theorem get_put_codestream (st : InterpState) (s : CodeStream) :
    (st.put_codestream s).get_codestream = s := by
  unfold InterpState.put_codestream InterpState.get_codestream
  by_cases h : st.run_mode <;> simp [h]

theorem put_codestream_run_mode (st : InterpState) (s : CodeStream) :
    (st.put_codestream s).run_mode = st.run_mode := by
  unfold InterpState.put_codestream
  split <;> rfl

theorem put_codestream_scalars (st : InterpState) (s : CodeStream) :
    (st.put_codestream s).scalars = st.scalars := by
  unfold InterpState.put_codestream
  split <;> rfl

/-- One step past the empty-loop entry check: when the start value is
already past the stop value in the step's direction, one increment by
the step is still past it. -/
theorem step_past_stop {start stop step : Int}
    (h : if step.sign > 0 then start > stop else stop > start) :
    if step.sign > 0 then start + step > stop else stop > start + step := by
  rcases step with (_ | m) | n
  · simpa using h
  · simp only [Int.sign] at h ⊢
    norm_num at h ⊢
    omega
  · simp only [Int.sign, Int.negSucc_eq] at h ⊢
    norm_num at h ⊢
    omega

/-- Iterating at a position matched by the innermost frame whose
exhaustion test already fails pops that frame. -/
theorem iterate_loop_top_pop (st : InterpState) (fr : Frame) (below : List Frame)
    (hstack : st.for_stack = fr :: below)
    (hpos : st.get_codestream.pos = fr.nextpos)
    (hend : if fr.sgn > 0 then st.scalarGet fr.varname + fr.step > fr.stop
            else fr.stop > st.scalarGet fr.varname + fr.step) :
    st.iterate_loop none =
      .ok ({ st.scalarSet fr.varname (st.scalarGet fr.varname + fr.step) with
              for_stack := below }, false) := by
  rw [InterpState.iterate_loop, hpos, hstack]
  have hff : InterpState.findForFrame fr.nextpos (fr :: below) = some (fr, below) := by
    simp [InterpState.findForFrame]
  rw [hff]
  exact if_pos hend

/-- Claim C3: a FOR whose start value is already past the stop value in
the step's direction (with the matching NEXT located at `nextpos`) runs
the body zero times: the frame pushed for the loop is popped again by
the single immediate iterate step, the cursor is left just past the
matching NEXT, the run mode is unchanged, and the counter is left at
the start value plus exactly one step. -/
theorem for_empty_loop (st : InterpState) (varname : List Nat) (start stop step : Int)
    (forpos nextpos : Nat)
    (hv1 : varname.getLastD 0 ≠ 36) (hv2 : varname.getLastD 0 ≠ 35)
    (hfind : find_next st.get_codestream varname = .ok (forpos, nextpos))
    (hempty : if step.sign > 0 then start > stop else stop > start) :
    (st.for_ varname start stop (some step)).2 = none ∧
      (st.for_ varname start stop (some step)).1.for_stack = st.for_stack ∧
      (st.for_ varname start stop (some step)).1.scalarGet varname = start + step ∧
      (st.for_ varname start stop (some step)).1.get_codestream.pos = nextpos ∧
      (st.for_ varname start stop (some step)).1.run_mode = st.run_mode := by
  have hv : ¬(varname.getLastD 0 = 36 ∨ varname.getLastD 0 = 35) := by tauto
  simp only [InterpState.for_, hfind, Option.getD, if_neg hv, if_pos hempty]
  set stA := st.scalarSet varname start with hA
  set fr : Frame := ⟨varname, stop, step, step.sign, forpos, nextpos⟩ with hfr
  set stB : InterpState := { stA with for_stack := fr :: stA.for_stack } with hB
  set stC := stB.put_codestream (stB.get_codestream.seekTo nextpos) with hC
  have hpos : stC.get_codestream.pos = nextpos := by
    rw [hC, get_put_codestream]
    rfl
  have hstackC : stC.for_stack = fr :: stA.for_stack := by
    rw [hC, put_codestream_for_stack]
  have hscalC : stC.scalars = InterpState.setScalar st.scalars varname start := by
    rw [hC, put_codestream_scalars]
    rfl
  have hgetC : stC.scalarGet varname = start := by
    rw [InterpState.scalarGet, hscalC, find?_setScalar]
    rfl
  have hposC : stC.get_codestream.pos = fr.nextpos := hpos
  have hgetC2 : stC.scalarGet fr.varname = start := hgetC
  have hendC : (if fr.sgn > 0 then stC.scalarGet fr.varname + fr.step > fr.stop
      else fr.stop > stC.scalarGet fr.varname + fr.step) := by
    show (if step.sign > 0 then stC.scalarGet varname + step > stop
      else stop > stC.scalarGet varname + step)
    rw [hgetC]
    exact step_past_stop hempty
  have hiter := iterate_loop_top_pop stC fr stA.for_stack hstackC hposC hendC
  rw [hiter]
  refine ⟨rfl, rfl, ?_, ?_, ?_⟩
  · show (InterpState.scalarGet _ varname) = start + step
    simp only [InterpState.scalarGet, InterpState.scalarSet, find?_setScalar]
    show ((some ((fr.varname, stC.scalarGet fr.varname + fr.step) : List Nat × Int)).map
        Prod.snd).getD 0 = start + step
    rw [Option.map_some', Option.getD_some, hgetC2]
  · show (InterpState.get_codestream _).pos = nextpos
    rw [InterpState.get_codestream] at hpos ⊢
    simp only [InterpState.scalarSet]
    by_cases hrm : stC.run_mode <;> simp only [hrm] at hpos ⊢ <;> simpa using hpos
  · show stC.run_mode = st.run_mode
    rw [hC, put_codestream_run_mode]
    rfl

/-- Concrete state for the C3 witness: the current (direct) stream holds
`: NEXT I` right after the FOR clause, so `_find_next` locates the NEXT
at offset 1 and the position just after its variable at offset 3. -/
def forEmptyState : InterpState :=
  { baseState with direct := ⟨[58, 131, 73, 0], 0⟩ }

/-- Witness for C3: `FOR I% = 1 TO 0` (implicit STEP 1) runs the body
zero times, leaves the counter at 2, the cursor just past `NEXT I` and
the FOR stack empty. -/
theorem for_empty_loop_witness :
    find_next forEmptyState.get_codestream [73, 33] = .ok (0, 3) ∧
      (forEmptyState.for_ [73, 33] 1 0 (some 1)).2 = none ∧
      (forEmptyState.for_ [73, 33] 1 0 (some 1)).1.scalarGet [73, 33] = 2 ∧
      (forEmptyState.for_ [73, 33] 1 0 (some 1)).1.get_codestream.pos = 3 ∧
      (forEmptyState.for_ [73, 33] 1 0 (some 1)).1.for_stack = [] := by
  have h := for_empty_loop forEmptyState [73, 33] 1 0 1 0 3 (by decide) (by decide)
    rfl (by norm_num)
  exact ⟨rfl, h.1, by simpa using h.2.2.1, h.2.2.2.1, h.2.1⟩

/-- Removal of all whitespace from a byte list ("the numeral with
whitespace removed beforehand"). -/
def filterNB (l : List Nat) : List Nat := l.filter (fun b => !isBlank b)

/-- Side condition for the whitespace round trip: no embedded blank may
immediately precede (through further blanks) a sign or the letters L/Q,
since `_read_dec` decides the sign-in-exponent rule from the previous
raw character and the ELSE/EQV rule from the peeked next raw character. -/
def okBlanks : List Nat → Bool
  | [] => true
  | b :: t =>
    ((!isBlank b) ||
      (match (t.dropWhile fun x => isBlank x).head? with
       | some c => !(upperB c = 76 ∨ upperB c = 81 ∨ c = 43 ∨ c = 45)
       | none => true)) && okBlanks t

/-- First byte not whitespace (degenerately true for the empty list). -/
def headNonBlank (w : List Nat) : Prop :=
  match w.head? with
  | some c => isBlank c = false
  | none => True

/-- Last byte is whitespace. -/
def lastBlank (w : List Nat) : Bool :=
  match w.getLast? with
  | some c => isBlank c
  | none => false

/-- First byte is not a sign character. -/
def headNotSign (l : List Nat) : Prop :=
  match l.head? with
  | some c => c ≠ 43 ∧ c ≠ 45
  | none => True

theorem upperB_of_blank {b : Nat} (h : isBlank b = true) : upperB b = b := by
  simp only [isBlank, Bool.decide_or, Bool.or_eq_true, decide_eq_true_eq] at h
  rcases h with h | h | h <;> subst h <;> decide

theorem filterNB_append (w : List Nat) (c : Nat) :
    filterNB (w ++ [c]) = filterNB w ++ (if isBlank c then [] else [c]) := by
  rw [filterNB, List.filter_append]
  by_cases h : isBlank c <;> simp [filterNB, h]

theorem filterNB_cons (c : Nat) (t : List Nat) :
    filterNB (c :: t) = if isBlank c then filterNB t else c :: filterNB t := by
  by_cases h : isBlank c <;> simp [filterNB, h]

theorem headFilterNB (t : List Nat) :
    (filterNB t).head? = (t.dropWhile fun b => isBlank b).head? := by
  induction t with
  | nil => rfl
  | cons c t ih =>
    by_cases h : isBlank c <;> simp [filterNB_cons, List.dropWhile_cons, h, ih]

theorem okBlanks_tail {b : Nat} {t : List Nat} (h : okBlanks (b :: t) = true) :
    okBlanks t = true := by
  simp only [okBlanks, Bool.and_eq_true] at h
  exact h.2

theorem okBlanks_blank_head {b : Nat} {t : List Nat} (h : okBlanks (b :: t) = true)
    (hb : isBlank b = true) :
    ∀ c, (t.dropWhile fun x => isBlank x).head? = some c →
      ¬(upperB c = 76 ∨ upperB c = 81 ∨ c = 43 ∨ c = 45) := by
  intro c hc
  simp only [okBlanks, Bool.and_eq_true, Bool.or_eq_true, Bool.not_eq_true',
    decide_eq_false_iff_not] at h
  rcases h.1 with h1 | h1
  · rw [hb] at h1; cases h1
  · rw [hc] at h1
    simpa using h1

theorem peekLQ_filterNB {t : List Nat} (h : okBlanks t = true) :
    peekLQ (filterNB t) = peekLQ t := by
  cases t with
  | nil => rfl
  | cons c t' =>
    by_cases hc : isBlank c
    · rw [peekLQ, peekLQ, filterNB_cons, if_pos hc, headFilterNB]
      simp only [List.head?_cons]
      have h2 : ¬(upperB c = 76 ∨ upperB c = 81) := by
        rw [upperB_of_blank hc]
        simp only [isBlank, Bool.decide_or, Bool.or_eq_true, decide_eq_true_eq] at hc
        rcases hc with e | e | e <;> subst e <;> decide
      cases hd : (t'.dropWhile fun x => isBlank x).head? with
      | none => simp [h2]
      | some d =>
        have hh := okBlanks_blank_head h hc d hd
        have h1 : ¬(upperB d = 76 ∨ upperB d = 81) := fun hx => hh (by tauto)
        simp [h1, h2]
    · rw [peekLQ, peekLQ, filterNB_cons, if_neg hc]
      rfl

theorem filterNB_eq_nil_iff {w : List Nat} (hw : headNonBlank w) :
    filterNB w = [] ↔ w = [] := by
  cases w with
  | nil => simp [filterNB]
  | cons c t =>
    rw [headNonBlank] at hw
    simp only [List.head?_cons] at hw
    simp [filterNB_cons, hw]

theorem getLast_filterNB {w : List Nat} (hl : lastBlank w = false) :
    (filterNB w).getLast? = w.getLast? := by
  cases hw : w.getLast? with
  | none =>
    have : w = [] := by
      cases w with
      | nil => rfl
      | cons c t => simp at hw
    subst this
    rfl
  | some c =>
    have hc : isBlank c = false := by
      rw [lastBlank, hw] at hl
      exact hl
    rw [← List.head?_reverse]
    have hrev : (filterNB w).reverse = filterNB w.reverse := by
      rw [filterNB, filterNB, List.filter_reverse]
    rw [hrev, headFilterNB]
    have hwr : w.reverse.head? = some c := by
      rw [List.head?_reverse, hw]
    cases hr : w.reverse with
    | nil => rw [hr] at hwr; cases hwr
    | cons d t =>
      rw [hr] at hwr
      simp only [List.head?_cons, Option.some.injEq] at hwr
      subst hwr
      rw [List.dropWhile_cons, if_neg (by simp [hc])]
      rfl

theorem isBlank_upperB (b : Nat) : isBlank (upperB b) = isBlank b := by
  by_cases h : 97 ≤ b ∧ b ≤ 122
  · rw [upperB, if_pos h]
    have h1 : isBlank (b - 32) = false := by
      simp only [isBlank, decide_eq_false_iff_not]
      omega
    have h2 : isBlank b = false := by
      simp only [isBlank, decide_eq_false_iff_not]
      omega
    rw [h1, h2]
  · rw [upperB, if_neg h]

theorem upperB_sign {b : Nat} (h : upperB b = 43 ∨ upperB b = 45) : b = 43 ∨ b = 45 := by
  rw [upperB] at h
  split at h
  · next hr => omega
  · exact h

/-- Lockstep simulation of `_read_dec`'s absorption loop against the
whitespace-free input: under the `okBlanks` side condition, the word
accumulated on the whitespace-free stream is the whitespace-free image
of the word accumulated on the original stream. -/
theorem readDecLoop_filter :
    ∀ (l : List Nat) (f1 f2 : Nat) (exp pt : Bool) (w1 : List Nat),
      l.length < f1 → (filterNB l).length < f2 → okBlanks l = true →
      (w1 = [] → headNonBlank l) → headNonBlank w1 →
      (lastBlank w1 = true → headNotSign l) →
      (readDecLoop f2 (filterNB l) exp pt (filterNB w1)).1
        = filterNB (readDecLoop f1 l exp pt w1).1 := by
  intro l
  induction l with
  | nil =>
    intro f1 f2 exp pt w1 _ _ _ _ _ _
    show (readDecLoop f2 (filterNB []) exp pt (filterNB w1)).1 = _
    have e : filterNB [] = ([] : List Nat) := rfl
    rw [e]
    cases f1 <;> cases f2 <;> simp [readDecLoop]
  | cons b t ih =>
    intro f1 f2 exp pt w1 h1 h2 hok hD hB hC
    have hokt : okBlanks t = true := okBlanks_tail hok
    cases f1 with
    | zero => omega
    | succ f1' =>
    have h1' : t.length < f1' := by
      simp only [List.length_cons] at h1
      omega
    by_cases hb : isBlank b = true
    · -- whitespace byte: absorbed by the original run only
      have hbl : filterNB (b :: t) = filterNB t := by rw [filterNB_cons, if_pos hb]
      rw [hbl] at h2 ⊢
      have hb3 : b = 32 ∨ b = 9 ∨ b = 10 := by
        simpa [isBlank] using hb
      have hw1ne : w1 ≠ [] := by
        intro e
        have hh := hD e
        rw [headNonBlank] at hh
        simp only [List.head?_cons] at hh
        rw [hh] at hb
        cases hb
      simp only [readDecLoop, upperB_of_blank hb]
      rw [if_neg (by rintro ⟨h, -⟩; omega)]
      rw [if_neg (by rintro ⟨h | h, -⟩ <;> omega)]
      rw [if_neg (by rintro ⟨h | h, -⟩ <;> omega)]
      rw [if_pos (Or.inr (Or.inl hb))]
      have happ : filterNB (w1 ++ [b]) = filterNB w1 := by
        rw [filterNB_append, if_pos hb, List.append_nil]
      have hB' : headNonBlank (w1 ++ [b]) := by
        cases w1 with
        | nil => exact absurd rfl hw1ne
        | cons x xs =>
          rw [headNonBlank] at hB ⊢
          simpa using hB
      have hC' : lastBlank (w1 ++ [b]) = true → headNotSign t := by
        intro _
        rw [headNotSign]
        cases hh : t.head? with
        | none => trivial
        | some d =>
          by_cases hd : isBlank d = true
          · have : d = 32 ∨ d = 9 ∨ d = 10 := by simpa [isBlank] using hd
            omega
          · have hdw : (t.dropWhile fun x => isBlank x).head? = some d := by
              cases t with
              | nil => simp at hh
              | cons z zs =>
                simp only [List.head?_cons, Option.some.injEq] at hh
                subst hh
                rw [List.dropWhile_cons, if_neg hd]
                rfl
            have := okBlanks_blank_head hok hb d hdw
            exact ⟨fun e => this (by tauto), fun e => this (by tauto)⟩
      have := ih f1' f2 exp pt (w1 ++ [b]) h1' h2 hokt
        (fun e => absurd e (by simp)) hB' hC'
      rw [happ] at this
      simpa using this
    · -- non-whitespace byte: both runs absorb or stop together
      have hbf : isBlank b = false := by simpa using hb
      have hcb : isBlank (upperB b) = false := by rw [isBlank_upperB]; exact hbf
      have hbt : filterNB (b :: t) = b :: filterNB t := by
        rw [filterNB_cons, if_neg (by simp [hbf])]
      rw [hbt] at h2 ⊢
      cases f2 with
      | zero => simp at h2
      | succ f2' =>
      have h2' : (filterNB t).length < f2' := by
        simp only [List.length_cons] at h2
        omega
      have hBapp : ∀ c : Nat, isBlank c = false → headNonBlank (w1 ++ [c]) := by
        intro c hcf
        cases w1 with
        | nil => simpa [headNonBlank] using hcf
        | cons x xs =>
          rw [headNonBlank] at hB ⊢
          simpa using hB
      have hCapp : ∀ (c : Nat) (l' : List Nat), isBlank c = false →
          (lastBlank (w1 ++ [c]) = true → headNotSign l') := by
        intro c l' hcf hlast
        rw [lastBlank, List.getLast?_concat] at hlast
        simp only [hcf] at hlast
        exact Bool.noConfusion hlast
      have happ : ∀ c : Nat, isBlank c = false →
          filterNB (w1 ++ [c]) = filterNB w1 ++ [c] := by
        intro c hcf
        rw [filterNB_append, if_neg (by simp [hcf])]
      simp only [readDecLoop]
      by_cases h46 : (upperB b = 46 ∧ ¬pt = true ∧ ¬exp = true)
      · rw [if_pos h46, if_pos h46]
        have h46b : isBlank (upperB b) = false := hcb
        have := ih f1' f2' exp true (w1 ++ [upperB b]) h1' h2' hokt
          (fun e => absurd e (by simp)) (hBapp _ h46b) (hCapp _ t h46b)
        rw [happ _ h46b] at this
        simpa using this
      · rw [if_neg h46, if_neg h46]
        by_cases hED : ((upperB b = 69 ∨ upperB b = 68) ∧ ¬exp = true)
        · rw [if_pos hED, if_pos hED]
          rw [peekLQ_filterNB hokt]
          by_cases hLQ : (upperB b = 69 ∧ peekLQ t = true)
          · rw [if_pos hLQ, if_pos hLQ]
          · rw [if_neg hLQ, if_neg hLQ]
            have := ih f1' f2' true pt (w1 ++ [upperB b]) h1' h2' hokt
              (fun e => absurd e (by simp)) (hBapp _ hcb) (hCapp _ t hcb)
            rw [happ _ hcb] at this
            simpa using this
        · rw [if_neg hED, if_neg hED]
          by_cases hpm : ((upperB b = 43 ∨ upperB b = 45) ∧ (w1 = [] ∨ lastED w1 = true))
          · have hlb : lastBlank w1 = false := by
              by_contra hx
              have hx' : lastBlank w1 = true := by simpa using hx
              have hns := hC hx'
              rw [headNotSign] at hns
              simp only [List.head?_cons] at hns
              rcases upperB_sign hpm.1 with e | e <;> omega
            have hpm2 : ((upperB b = 43 ∨ upperB b = 45) ∧
                (filterNB w1 = [] ∨ lastED (filterNB w1) = true)) := by
              refine ⟨hpm.1, ?_⟩
              rcases hpm.2 with e | e
              · subst e
                exact Or.inl rfl
              · right
                rw [lastED] at e ⊢
                rw [getLast_filterNB hlb]
                exact e
            rw [if_pos hpm, if_pos hpm2]
            have hsb : isBlank (upperB b) = false := hcb
            have := ih f1' f2' exp pt (w1 ++ [upperB b]) h1' h2' hokt
              (fun e => absurd e (by simp)) (hBapp _ hsb) (hCapp _ t hsb)
            rw [happ _ hsb] at this
            simpa using this
          · have hpm2 : ¬((upperB b = 43 ∨ upperB b = 45) ∧
                (filterNB w1 = [] ∨ lastED (filterNB w1) = true)) := by
              intro hx
              apply hpm
              refine ⟨hx.1, ?_⟩
              have hlb : lastBlank w1 = false := by
                by_contra hy
                have hy' : lastBlank w1 = true := by simpa using hy
                have hns := hC hy'
                rw [headNotSign] at hns
                simp only [List.head?_cons] at hns
                rcases upperB_sign hx.1 with e | e <;> omega
              rcases hx.2 with e | e
              · exact Or.inl ((filterNB_eq_nil_iff hB).mp e)
              · right
                rw [lastED] at e ⊢
                rwa [getLast_filterNB hlb] at e
            rw [if_neg hpm, if_neg hpm2]
            by_cases hdig : (isDigit (upperB b) = true ∨ isBlank (upperB b) = true
                ∨ isSep (upperB b) = true)
            · rw [if_pos hdig, if_pos hdig]
              have := ih f1' f2' exp pt (w1 ++ [upperB b]) h1' h2' hokt
                (fun e => absurd e (by simp)) (hBapp _ hcb) (hCapp _ t hcb)
              rw [happ _ hcb] at this
              simpa using this
            · rw [if_neg hdig, if_neg hdig]
              by_cases hbh : ((upperB b = 33 ∨ upperB b = 35) ∧ ¬exp = true)
              · rw [if_pos hbh, if_pos hbh]
                show filterNB w1 ++ [upperB b] = filterNB (w1 ++ [upperB b])
                rw [happ _ hcb]
              · rw [if_neg hbh, if_neg hbh]
                by_cases hpc : upperB b = 37
                · rw [if_pos hpc, if_pos hpc]
                · rw [if_neg hpc, if_neg hpc]

theorem filterNB_rstripB : ∀ x : List Nat, filterNB (rstripB x) = filterNB x := by
  intro x
  induction x with
  | nil => rfl
  | cons b t ih =>
    simp only [rstripB]
    by_cases h : rstripB t = [] ∧ isBlank b = true
    · rw [if_pos h]
      rw [filterNB_cons, if_pos h.2, ← ih, h.1]
    · rw [if_neg h]
      rw [filterNB_cons, filterNB_cons, ih]

theorem filterNB_lstripB : ∀ x : List Nat, filterNB (lstripB x) = filterNB x := by
  intro x
  induction x with
  | nil => rfl
  | cons b t ih =>
    rw [lstripB, List.dropWhile_cons]
    by_cases h : isBlank b = true
    · rw [if_pos (by simp [h])]
      rw [filterNB_cons, if_pos h]
      exact ih
    · rw [if_neg (by simpa using h)]

theorem filterNB_stripB (x : List Nat) : filterNB (stripB x) = filterNB x := by
  rw [stripB, filterNB_lstripB, filterNB_rstripB]

theorem no_blank_filterNB (x : List Nat) : ∀ b ∈ filterNB x, isBlank b = false := by
  intro b hb
  rw [filterNB, List.mem_filter] at hb
  simpa using hb.2

theorem rstripB_idem (x : List Nat) : rstripB (rstripB x) = rstripB x := by
  induction x with
  | nil => rfl
  | cons b t ih =>
    simp only [rstripB]
    by_cases h : rstripB t = [] ∧ isBlank b = true
    · rw [if_pos h]
      rfl
    · rw [if_neg h]
      simp only [rstripB, ih]
      rw [if_neg h]

theorem rstripB_lstripB (x : List Nat) : rstripB (lstripB x) = lstripB (rstripB x) := by
  induction x with
  | nil => rfl
  | cons b t ih =>
    by_cases h : isBlank b = true
    · have hl : lstripB (b :: t) = lstripB t := by
        rw [lstripB, lstripB, List.dropWhile_cons, if_pos (by simp [h])]
      rw [hl, ih]
      simp only [rstripB]
      by_cases h2 : rstripB t = [] ∧ isBlank b = true
      · rw [if_pos h2, h2.1]
      · rw [if_neg h2]
        have hl2 : lstripB (b :: rstripB t) = lstripB (rstripB t) := by
          rw [lstripB, lstripB, List.dropWhile_cons, if_pos (by simp [h])]
        rw [hl2]
    · have hl : lstripB (b :: t) = b :: t := by
        rw [lstripB, List.dropWhile_cons, if_neg (by simpa using h)]
      rw [hl]
      simp only [rstripB]
      by_cases h2 : rstripB t = [] ∧ isBlank b = true
      · exact absurd h2.2 h
      · rw [if_neg h2]
        have hl2 : lstripB (b :: rstripB t) = b :: rstripB t := by
          rw [lstripB, List.dropWhile_cons, if_neg (by simpa using h)]
        rw [hl2]

/-- Counterexample to claim C7 as stated: lexing `1 2` returns the token
`1 2` - the embedded whitespace byte is not stripped from the token
(only leading and trailing whitespace is), and lexing `1\x1c2` returns
`1\x1c2` - the separator control byte is kept, not stripped. -/
theorem read_dec_whitespace_counterexample :
    (read_dec ⟨[49, 32, 50], 0⟩).1 = [49, 32, 50] ∧
      ([49, 32, 50] : List Nat) ≠ [49, 50] ∧
      (read_dec ⟨[49, 28, 50], 0⟩).1 = [49, 28, 50] ∧
      ([49, 28, 50] : List Nat) ≠ [49, 50] := by
  decide

/-- Claim C7 (amended): `_read_dec` strips only the trailing whitespace
from the returned token and repositions the cursor so that trailing
whitespace is not consumed; internal whitespace and the separator
control bytes are retained in the token.  For a numeral starting with a
non-blank byte and whose embedded blanks never immediately precede a
sign or the letters L/Q, removing all whitespace from the returned
token yields exactly the token obtained by lexing the numeral with
whitespace removed beforehand. -/
theorem read_dec_strip_roundtrip :
    (∀ l : List Nat, okBlanks l = true → headNonBlank l →
      filterNB (read_dec ⟨l, 0⟩).1 = (read_dec ⟨filterNB l, 0⟩).1) ∧
      (∀ s : CodeStream, rstripB (read_dec s).1 = (read_dec s).1) := by
  constructor
  · intro l hok hhead
    have hmain := readDecLoop_filter l (l.length + 1) ((filterNB l).length + 1)
      false false [] (by omega) (by omega) hok (fun _ => hhead) trivial
      (fun e => by simp [lastBlank] at e)
    simp only [read_dec, CodeStream.rest, List.drop_zero]
    set w1 := (readDecLoop (l.length + 1) l false false []).1 with hw1
    set w2 := (readDecLoop ((filterNB l).length + 1) (filterNB l) false false []).1
      with hw2
    have hw2f : w2 = filterNB w1 := by
      rw [hw2, hw1]
      exact hmain
    have hnb2 : ∀ b ∈ w2, isBlank b = false := by
      rw [hw2f]
      exact no_blank_filterNB w1
    show filterNB (stripB (rstripB w1)) = stripB (rstripB w2)
    rw [filterNB_stripB, filterNB_rstripB, rstripB_of_no_blank hnb2,
      stripB_of_no_blank hnb2]
    exact hw2f.symm
  · intro s
    simp only [read_dec, CodeStream.rest]
    rw [stripB, rstripB_lstripB, rstripB_idem]

/-- Witness for the amended C7 at the numeral `1 2:` - the token's
whitespace-free image equals the token lexed from the pre-stripped
numeral `12:` - and for the trailing-whitespace property at `12 :`. -/
theorem read_dec_strip_roundtrip_witness :
    okBlanks [49, 32, 50, 58] = true ∧
      filterNB (read_dec ⟨[49, 32, 50, 58], 0⟩).1
        = (read_dec ⟨filterNB [49, 32, 50, 58], 0⟩).1 ∧
      rstripB (read_dec ⟨[49, 50, 32, 58], 0⟩).1 = (read_dec ⟨[49, 50, 32, 58], 0⟩).1 := by
  refine ⟨by decide, ?_, read_dec_strip_roundtrip.2 ⟨[49, 50, 32, 58], 0⟩⟩
  exact read_dec_strip_roundtrip.1 [49, 32, 50, 58] (by decide)
    (by exact (by decide : isBlank 49 = false))

/-- Two buffers differ only inside suppressed (string-literal or
comment) regions of the `skip_to` scan: the relation runs the scan on
both buffers in lockstep; bytes read in a non-suppressed state (and the
line-marker and numeric-token payloads) must agree literally, while a
differing byte is allowed exactly when the scanner is inside a
suppressed region and neither byte is a quote, the comment introducer
or the line-marker byte (so the region does not end differently). -/
def inertAgree (findrange : List Nat) : Nat → List Nat → List Nat → Bool → Bool → Bool → Bool
  | 0, _, _, _, _, _ => true
  | _ + 1, [], [], _, _, _ => true
  | _ + 1, [], _ :: _, _, _, _ => false
  | _ + 1, _ :: _, [], _, _, _ => false
  | fuel + 1, c1 :: t1, c2 :: t2, literal, rem, bofc =>
    if c1 = c2 then
      let literal1 := if c1 = qUOTE then !literal else literal
      let rem1 := if c1 ≠ qUOTE ∧ c1 = tok_REM then true else rem
      let literal2 := if c1 ≠ qUOTE ∧ c1 ≠ tok_REM ∧ c1 = 0 then false else literal1
      let rem2 := if c1 ≠ qUOTE ∧ c1 ≠ tok_REM ∧ c1 = 0 then false else rem1
      if literal2 = true ∨ rem2 = true then inertAgree findrange fuel t1 t2 literal2 rem2 bofc
      else if c1 ∈ findrange ∧ bofc = true then true
      else if c1 = 0 then
        decide (t1.take 4 = t2.take 4) &&
          inertAgree findrange fuel (t1.drop 4) (t2.drop 4) false rem2 true
      else if isPlusByte c1 = true then
        decide (t1.take (plusBytes c1) = t2.take (plusBytes c1)) &&
          inertAgree findrange fuel (t1.drop (plusBytes c1)) (t2.drop (plusBytes c1))
            literal2 rem2 true
      else inertAgree findrange fuel t1 t2 literal2 rem2 true
    else
      (literal || rem) &&
        decide (c1 ≠ qUOTE ∧ c1 ≠ tok_REM ∧ c1 ≠ 0) &&
        decide (c2 ≠ qUOTE ∧ c2 ≠ tok_REM ∧ c2 ≠ 0) &&
        inertAgree findrange fuel t1 t2 literal rem bofc

/-- The `skip_to` scan consumes the same number of bytes on two buffers
that differ only inside suppressed regions. -/
theorem skipToCount_congr (findrange : List Nat) :
    ∀ (fuel : Nat) (l1 l2 : List Nat) (literal rem bofc : Bool),
      inertAgree findrange fuel l1 l2 literal rem bofc = true →
      skipToCount findrange fuel l1 literal rem bofc
        = skipToCount findrange fuel l2 literal rem bofc := by
  intro fuel
  induction fuel with
  | zero => intro l1 l2 literal rem bofc _; rfl
  | succ fuel ih =>
    intro l1 l2 literal rem bofc h
    match l1, l2 with
    | [], [] => rfl
    | [], c2 :: t2 => exact absurd h (by simp [inertAgree])
    | c1 :: t1, [] => exact absurd h (by simp [inertAgree])
    | c1 :: t1, c2 :: t2 =>
      by_cases hc : c1 = c2
      · subst hc
        rw [inertAgree, if_pos rfl] at h
        show skipToCount findrange (fuel + 1) (c1 :: t1) literal rem bofc
          = skipToCount findrange (fuel + 1) (c1 :: t2) literal rem bofc
        rw [skipToCount, skipToCount]
        by_cases hsup :
            ((if c1 ≠ qUOTE ∧ c1 ≠ tok_REM ∧ c1 = 0 then false
              else if c1 = qUOTE then !literal else literal) = true ∨
             (if c1 ≠ qUOTE ∧ c1 ≠ tok_REM ∧ c1 = 0 then false
              else if c1 ≠ qUOTE ∧ c1 = tok_REM then true else rem) = true)
        · rw [if_pos hsup, if_pos hsup]
          rw [if_pos hsup] at h
          rw [ih _ _ _ _ _ h]
        · rw [if_neg hsup, if_neg hsup]
          rw [if_neg hsup] at h
          by_cases hfr : (c1 ∈ findrange ∧ bofc = true)
          · rw [if_pos hfr, if_pos hfr]
          · rw [if_neg hfr, if_neg hfr]
            rw [if_neg hfr] at h
            by_cases h0 : c1 = 0
            · rw [if_pos h0, if_pos h0]
              rw [if_pos h0, Bool.and_eq_true, decide_eq_true_eq] at h
              obtain ⟨htk, hrec⟩ := h
              have htk2 : t1.take 2 = t2.take 2 := by
                have e := congrArg (List.take 2) htk
                simpa [List.take_take] using e
              by_cases hbrk : ((t1.take 2).length < 2 ∨ t1.take 2 = [0, 0])
              · have hbrk2 : ((t2.take 2).length < 2 ∨ t2.take 2 = [0, 0]) := by
                  rw [← htk2]
                  exact hbrk
                rw [if_pos hbrk, if_pos hbrk2, htk2]
              · have hbrk2 : ¬((t2.take 2).length < 2 ∨ t2.take 2 = [0, 0]) := by
                  rw [← htk2]
                  exact hbrk
                rw [if_neg hbrk, if_neg hbrk2]
                have hdt : (t1.drop 2).take 2 = (t2.drop 2).take 2 := by
                  have e1 := List.take_drop 2 2 t1
                  have e2 := List.take_drop 2 2 t2
                  rw [e1, e2, show (2 + 2 : Nat) = 4 from rfl, htk]
                rw [hdt, ih _ _ _ _ _ hrec]
            · rw [if_neg h0, if_neg h0]
              rw [if_neg h0] at h
              by_cases hpb : isPlusByte c1 = true
              · rw [if_pos hpb, if_pos hpb]
                rw [if_pos hpb, Bool.and_eq_true, decide_eq_true_eq] at h
                obtain ⟨htk, hrec⟩ := h
                rw [htk, ih _ _ _ _ _ hrec]
              · rw [if_neg hpb, if_neg hpb]
                rw [if_neg hpb] at h
                rw [ih _ _ _ _ _ h]
      · rw [inertAgree, if_neg hc] at h
        simp only [Bool.and_eq_true, decide_eq_true_eq, Bool.or_eq_true] at h
        obtain ⟨⟨⟨hlr, hc1⟩, hc2⟩, hrec⟩ := h
        show skipToCount findrange (fuel + 1) (c1 :: t1) literal rem bofc
          = skipToCount findrange (fuel + 1) (c2 :: t2) literal rem bofc
        rw [skipToCount, skipToCount]
        have hs1 : ((if c1 ≠ qUOTE ∧ c1 ≠ tok_REM ∧ c1 = 0 then false
            else if c1 = qUOTE then !literal else literal) = true ∨
            (if c1 ≠ qUOTE ∧ c1 ≠ tok_REM ∧ c1 = 0 then false
            else if c1 ≠ qUOTE ∧ c1 = tok_REM then true else rem) = true) := by
          rw [if_neg (by tauto), if_neg (by tauto), if_neg (by tauto),
            if_neg (by tauto)]
          rcases hlr with h | h
          · exact Or.inl h
          · exact Or.inr h
        have hs2 : ((if c2 ≠ qUOTE ∧ c2 ≠ tok_REM ∧ c2 = 0 then false
            else if c2 = qUOTE then !literal else literal) = true ∨
            (if c2 ≠ qUOTE ∧ c2 ≠ tok_REM ∧ c2 = 0 then false
            else if c2 ≠ qUOTE ∧ c2 = tok_REM then true else rem) = true) := by
          rw [if_neg (by tauto), if_neg (by tauto), if_neg (by tauto),
            if_neg (by tauto)]
          rcases hlr with h | h
          · exact Or.inl h
          · exact Or.inr h
        rw [if_pos hs1, if_pos hs2]
        have e1 : (if c1 ≠ qUOTE ∧ c1 ≠ tok_REM ∧ c1 = 0 then false
            else if c1 = qUOTE then !literal else literal) = literal := by
          rw [if_neg (by tauto), if_neg (by tauto)]
        have e2 : (if c1 ≠ qUOTE ∧ c1 ≠ tok_REM ∧ c1 = 0 then false
            else if c1 ≠ qUOTE ∧ c1 = tok_REM then true else rem) = rem := by
          rw [if_neg (by tauto), if_neg (by tauto)]
        have e3 : (if c2 ≠ qUOTE ∧ c2 ≠ tok_REM ∧ c2 = 0 then false
            else if c2 = qUOTE then !literal else literal) = literal := by
          rw [if_neg (by tauto), if_neg (by tauto)]
        have e4 : (if c2 ≠ qUOTE ∧ c2 ≠ tok_REM ∧ c2 = 0 then false
            else if c2 ≠ qUOTE ∧ c2 = tok_REM then true else rem) = rem := by
          rw [if_neg (by tauto), if_neg (by tauto)]
        rw [e1, e2, e3, e4, ih _ _ _ _ _ hrec]

theorem leadBlanks_congr : ∀ (l1 l2 : List Nat),
    l2.take (CodeStream.leadBlanks l1 + 1) = l1.take (CodeStream.leadBlanks l1 + 1) →
    CodeStream.leadBlanks l2 = CodeStream.leadBlanks l1 := by
  intro l1
  induction l1 with
  | nil =>
    intro l2 h
    cases l2 with
    | nil => rfl
    | cons c t2 => simp [CodeStream.leadBlanks] at h
  | cons b t1 ih =>
    intro l2 h
    by_cases hb : isBlank b = true
    · have hlb : CodeStream.leadBlanks (b :: t1) = CodeStream.leadBlanks t1 + 1 := by
        simp [CodeStream.leadBlanks, List.takeWhile_cons, hb]
      rw [hlb] at h ⊢
      cases l2 with
      | nil => simp at h
      | cons c t2 =>
        rw [List.take_succ_cons, List.take_succ_cons] at h
        simp only [List.cons.injEq] at h
        obtain ⟨hcb, ht⟩ := h
        subst hcb
        have := ih t2 ht
        simp [CodeStream.leadBlanks, List.takeWhile_cons, hb] at this ⊢
        omega
    · have hlb : CodeStream.leadBlanks (b :: t1) = 0 := by
        simp [CodeStream.leadBlanks, List.takeWhile_cons, hb]
      rw [hlb] at h ⊢
      cases l2 with
      | nil => simp at h
      | cons c t2 =>
        simp only [List.take_succ_cons, List.take_zero, List.cons.injEq] at h
        obtain ⟨hcb, -⟩ := h
        subst hcb
        simp [CodeStream.leadBlanks, List.takeWhile_cons, hb]

theorem head_drop_congr : ∀ (k : Nat) (l1 l2 : List Nat),
    l2.take (k + 1) = l1.take (k + 1) →
    (l2.drop k).head? = (l1.drop k).head? := by
  intro k
  induction k with
  | zero =>
    intro l1 l2 h
    cases l1 with
    | nil =>
      cases l2 with
      | nil => rfl
      | cons c t2 => simp at h
    | cons b t1 =>
      cases l2 with
      | nil => simp at h
      | cons c t2 =>
        simp only [List.take_succ_cons, List.take_zero, List.cons.injEq] at h
        simp [h.1]
  | succ k ih =>
    intro l1 l2 h
    cases l1 with
    | nil =>
      cases l2 with
      | nil => rfl
      | cons c t2 => simp at h
    | cons b t1 =>
      cases l2 with
      | nil => simp at h
      | cons c t2 =>
        rw [List.take_succ_cons, List.take_succ_cons] at h
        simp only [List.cons.injEq] at h
        exact ih t1 t2 h.2

/-- The `skip_to` scan performed inside the comma loop of `skip_block`. -/
def commaScan (m : List Nat) : Nat :=
  skipToCount (END_STATEMENT ++ [44]) (m.length + 1) m false false true

/-- Lockstep relation for the comma loop of `skip_block`: the leading
whitespace run and the byte after it agree literally, the scanned
stretch up to the separator obeys `inertAgree`, the stopping byte
agrees, and the relation follows the loop's own branch structure. -/
def commaAgree : Nat → List Nat → List Nat → Int → Bool
  | 0, _, _, _ => true
  | fuel + 1, l1, l2, stack =>
    decide (l2.take (CodeStream.leadBlanks l1 + 1) = l1.take (CodeStream.leadBlanks l1 + 1)) &&
      match (l1.drop (CodeStream.leadBlanks l1)).head? with
      | none => true
      | some d =>
        if d ∈ END_STATEMENT then true
        else
          inertAgree (END_STATEMENT ++ [44]) ((l1.drop (CodeStream.leadBlanks l1)).length + 1)
              (l1.drop (CodeStream.leadBlanks l1)) (l2.drop (CodeStream.leadBlanks l1))
              false false true &&
            (decide
                (((l1.drop (CodeStream.leadBlanks l1)).drop
                      (commaScan (l1.drop (CodeStream.leadBlanks l1)))).head?
                  = ((l2.drop (CodeStream.leadBlanks l1)).drop
                      (commaScan (l1.drop (CodeStream.leadBlanks l1)))).head?) &&
              match ((l1.drop (CodeStream.leadBlanks l1)).drop
                  (commaScan (l1.drop (CodeStream.leadBlanks l1)))).head? with
              | some c =>
                if c = 44 then
                  if stack > 0 then
                    commaAgree fuel
                      (((l1.drop (CodeStream.leadBlanks l1)).drop
                          (commaScan (l1.drop (CodeStream.leadBlanks l1)))).drop 1)
                      (((l2.drop (CodeStream.leadBlanks l1)).drop
                          (commaScan (l1.drop (CodeStream.leadBlanks l1)))).drop 1)
                      (stack - 1)
                  else true
                else
                  commaAgree fuel
                    ((l1.drop (CodeStream.leadBlanks l1)).drop
                        (commaScan (l1.drop (CodeStream.leadBlanks l1))))
                    ((l2.drop (CodeStream.leadBlanks l1)).drop
                        (commaScan (l1.drop (CodeStream.leadBlanks l1))))
                    stack
              | none =>
                commaAgree fuel
                  ((l1.drop (CodeStream.leadBlanks l1)).drop
                      (commaScan (l1.drop (CodeStream.leadBlanks l1))))
                  ((l2.drop (CodeStream.leadBlanks l1)).drop
                      (commaScan (l1.drop (CodeStream.leadBlanks l1))))
                  stack)

/-- The comma loop of `skip_block` consumes the same number of bytes and
returns the same continuation on buffers related by `commaAgree`. -/
theorem skipBlockCommaCount_congr :
    ∀ (fuel : Nat) (l1 l2 : List Nat) (stack : Int),
      l1.length = l2.length →
      commaAgree fuel l1 l2 stack = true →
      skipBlockCommaCount fuel l1 stack = skipBlockCommaCount fuel l2 stack := by
  intro fuel
  induction fuel with
  | zero => intro l1 l2 stack _ _; rfl
  | succ fuel ih =>
    intro l1 l2 stack hlen h
    simp only [commaAgree, commaScan] at h
    rw [Bool.and_eq_true] at h
    obtain ⟨htk, h⟩ := h
    rw [decide_eq_true_eq] at htk
    have hbl := leadBlanks_congr l1 l2 htk
    have hhead := head_drop_congr (CodeStream.leadBlanks l1) l1 l2 htk
    have hmlen : (l1.drop (CodeStream.leadBlanks l1)).length
        = (l2.drop (CodeStream.leadBlanks l1)).length := by
      rw [List.length_drop, List.length_drop, hlen]
    simp only [skipBlockCommaCount]
    rw [hbl, hhead]
    cases hd : (l1.drop (CodeStream.leadBlanks l1)).head? with
    | none => rfl
    | some d =>
      simp only [hd] at h
      simp only []
      by_cases hes : d ∈ END_STATEMENT
      · simp only [if_pos hes]
      · simp only [if_neg hes] at h ⊢
        rw [Bool.and_eq_true, Bool.and_eq_true] at h
        obtain ⟨hinert, hrh, hmatch⟩ := h
        rw [decide_eq_true_eq] at hrh
        have hscan : skipToCount (END_STATEMENT ++ [44])
              ((l2.drop (CodeStream.leadBlanks l1)).length + 1)
              (l2.drop (CodeStream.leadBlanks l1)) false false true
            = skipToCount (END_STATEMENT ++ [44])
              ((l1.drop (CodeStream.leadBlanks l1)).length + 1)
              (l1.drop (CodeStream.leadBlanks l1)) false false true := by
          rw [← hmlen]
          exact (skipToCount_congr _ _ _ _ _ _ _ hinert).symm
        rw [hscan, ← hrh]
        have hrlen : ((l1.drop (CodeStream.leadBlanks l1)).drop
              (skipToCount (END_STATEMENT ++ [44])
                ((l1.drop (CodeStream.leadBlanks l1)).length + 1)
                (l1.drop (CodeStream.leadBlanks l1)) false false true)).length
            = ((l2.drop (CodeStream.leadBlanks l1)).drop
              (skipToCount (END_STATEMENT ++ [44])
                ((l1.drop (CodeStream.leadBlanks l1)).length + 1)
                (l1.drop (CodeStream.leadBlanks l1)) false false true)).length := by
          simp only [List.length_drop, hlen]
        cases hc : ((l1.drop (CodeStream.leadBlanks l1)).drop
            (skipToCount (END_STATEMENT ++ [44])
              ((l1.drop (CodeStream.leadBlanks l1)).length + 1)
              (l1.drop (CodeStream.leadBlanks l1)) false false true)).head? with
        | none =>
          simp only [hc] at hmatch
          simp only []
          rw [ih _ _ _ hrlen hmatch]
        | some c =>
          simp only [hc] at hmatch
          simp only []
          by_cases hcomma : c = 44
          · simp only [if_pos hcomma] at hmatch ⊢
            by_cases hst : stack > 0
            · simp only [if_pos hst] at hmatch ⊢
              have hrlen2 : (((l1.drop (CodeStream.leadBlanks l1)).drop
                    (skipToCount (END_STATEMENT ++ [44])
                      ((l1.drop (CodeStream.leadBlanks l1)).length + 1)
                      (l1.drop (CodeStream.leadBlanks l1)) false false true)).drop 1).length
                  = (((l2.drop (CodeStream.leadBlanks l1)).drop
                    (skipToCount (END_STATEMENT ++ [44])
                      ((l1.drop (CodeStream.leadBlanks l1)).length + 1)
                      (l1.drop (CodeStream.leadBlanks l1)) false false true)).drop 1).length := by
                simp only [List.length_drop, hlen]
              rw [ih _ _ _ hrlen2 hmatch]
            · simp only [if_neg hst]
          · simp only [if_neg hcomma] at hmatch ⊢
            rw [ih _ _ _ hrlen hmatch]

/-- Lockstep relation for the outer loop of `skip_block`: the scan to
the next statement boundary obeys `inertAgree`, the stopping byte, the
line-marker trail, the leading whitespace run and the statement's first
keyword agree, and the relation follows the loop's own branch structure
(using `commaAgree` for the `NEXT I, J` comma loop). -/
def blockAgree (forc nextc : Nat) (allow_comma : Bool) :
    Nat → List Nat → List Nat → Int → Bool
  | 0, _, _, _ => true
  | fuel + 1, l1, l2, stack =>
    inertAgree (END_STATEMENT ++ [tok_THEN, tok_ELSE]) (l1.length + 1) l1 l2
        false false true &&
      (let n := skipToCount (END_STATEMENT ++ [tok_THEN, tok_ELSE]) (l1.length + 1) l1
          false false true
       let m1 := l1.drop n
       let m2 := l2.drop n
       decide (m1.head? = m2.head?) &&
         match m1.head? with
         | none => true
         | some c =>
           let trail := if c = 0 then (m1.drop 1).take 4 else []
           decide ((if c = 0 then (m2.drop 1).take 4 else []) = trail) &&
             if c = 0 ∧ (trail.length < 2 ∨ trail.take 2 = [0, 0]) then true
             else
               let p1 := m1.drop (1 + trail.length)
               let p2 := m2.drop (1 + trail.length)
               let bl := CodeStream.leadBlanks p1
               decide (p2.take (bl + 1) = p1.take (bl + 1)) &&
                 match (p1.drop bl).head? with
                 | none => true
                 | some d =>
                   if d = forc then
                     blockAgree forc nextc allow_comma fuel ((p1.drop bl).drop 1)
                       ((p2.drop bl).drop 1) (stack + 1)
                   else if d = nextc then
                     if stack ≤ 0 then true
                     else if allow_comma then
                       commaAgree fuel ((p1.drop bl).drop 1) ((p2.drop bl).drop 1)
                           (stack - 1) &&
                         match (skipBlockCommaCount fuel ((p1.drop bl).drop 1)
                             (stack - 1)).2 with
                         | none => true
                         | some stack2 =>
                           blockAgree forc nextc allow_comma fuel
                             (((p1.drop bl).drop 1).drop
                               (skipBlockCommaCount fuel ((p1.drop bl).drop 1)
                                 (stack - 1)).1)
                             (((p2.drop bl).drop 1).drop
                               (skipBlockCommaCount fuel ((p1.drop bl).drop 1)
                                 (stack - 1)).1)
                             stack2
                     else
                       blockAgree forc nextc allow_comma fuel ((p1.drop bl).drop 1)
                         ((p2.drop bl).drop 1) (stack - 1)
                   else blockAgree forc nextc allow_comma fuel (p1.drop bl) (p2.drop bl) stack)

/-- The `skip_block` scan consumes the same number of bytes on two
buffers of equal length related by `blockAgree`. -/
theorem skipBlockCount_congr (forc nextc : Nat) (allow_comma : Bool) :
    ∀ (fuel : Nat) (l1 l2 : List Nat) (stack : Int),
      l1.length = l2.length →
      blockAgree forc nextc allow_comma fuel l1 l2 stack = true →
      skipBlockCount forc nextc allow_comma fuel l1 stack
        = skipBlockCount forc nextc allow_comma fuel l2 stack := by
  intro fuel
  induction fuel with
  | zero => intro l1 l2 stack _ _; rfl
  | succ fuel ih =>
    intro l1 l2 stack hlen h
    simp only [blockAgree] at h
    rw [Bool.and_eq_true] at h
    obtain ⟨hinert, h⟩ := h
    have hscan : skipToCount (END_STATEMENT ++ [tok_THEN, tok_ELSE]) (l2.length + 1) l2
          false false true
        = skipToCount (END_STATEMENT ++ [tok_THEN, tok_ELSE]) (l1.length + 1) l1
          false false true := by
      rw [← hlen]
      exact (skipToCount_congr _ _ _ _ _ _ _ hinert).symm
    simp only [skipBlockCount]
    rw [hscan]
    rw [Bool.and_eq_true, decide_eq_true_eq] at h
    obtain ⟨hhd, h⟩ := h
    rw [← hhd]
    cases hc : (l1.drop (skipToCount (END_STATEMENT ++ [tok_THEN, tok_ELSE])
        (l1.length + 1) l1 false false true)).head? with
    | none => rfl
    | some c =>
      simp only [hc] at h
      simp only []
      rw [Bool.and_eq_true, decide_eq_true_eq] at h
      obtain ⟨htrail, h⟩ := h
      rw [htrail]
      by_cases hstop : c = 0 ∧
          ((if c = 0 then ((l1.drop (skipToCount (END_STATEMENT ++ [tok_THEN, tok_ELSE])
              (l1.length + 1) l1 false false true)).drop 1).take 4 else []).length < 2 ∨
            (if c = 0 then ((l1.drop (skipToCount (END_STATEMENT ++ [tok_THEN, tok_ELSE])
              (l1.length + 1) l1 false false true)).drop 1).take 4 else []).take 2 = [0, 0])
      · simp only [if_pos hstop]
      · simp only [if_neg hstop] at h ⊢
        rw [Bool.and_eq_true, decide_eq_true_eq] at h
        obtain ⟨htk, h⟩ := h
        have hbl := leadBlanks_congr _ _ htk
        rw [hbl]
        have hhead := head_drop_congr _ _ _ htk
        rw [hhead]
        cases hd : (((l1.drop (skipToCount (END_STATEMENT ++ [tok_THEN, tok_ELSE])
            (l1.length + 1) l1 false false true)).drop
              (1 + (if c = 0 then ((l1.drop (skipToCount (END_STATEMENT ++ [tok_THEN, tok_ELSE])
                (l1.length + 1) l1 false false true)).drop 1).take 4 else []).length)).drop
            (CodeStream.leadBlanks ((l1.drop (skipToCount (END_STATEMENT ++ [tok_THEN, tok_ELSE])
              (l1.length + 1) l1 false false true)).drop
                (1 + (if c = 0 then ((l1.drop (skipToCount (END_STATEMENT ++ [tok_THEN, tok_ELSE])
                  (l1.length + 1) l1 false false true)).drop 1).take 4 else []).length)))).head? with
    | none => rfl
    | some d =>
      simp only [hd] at h
      simp only []
      by_cases hfor : d = forc
      · simp only [if_pos hfor] at h ⊢
        rw [ih _ _ _ (by simp only [List.length_drop, hlen]) h]
      · simp only [if_neg hfor] at h ⊢
        by_cases hnext : d = nextc
        · simp only [if_pos hnext] at h ⊢
          by_cases hst : stack ≤ 0
          · simp only [if_pos hst]
          · simp only [if_neg hst] at h ⊢
            by_cases hac : allow_comma = true
            · simp only [if_pos hac] at h ⊢
              rw [Bool.and_eq_true] at h
              obtain ⟨hcm, h⟩ := h
              have hkr : skipBlockCommaCount fuel _ (stack - 1)
                  = skipBlockCommaCount fuel _ (stack - 1) :=
                (skipBlockCommaCount_congr fuel _ _ (stack - 1)
                  (by simp only [List.length_drop, hlen]) hcm).symm
              rw [hkr]
              cases hk2 : (skipBlockCommaCount fuel _ (stack - 1)).2 with
              | none => rfl
              | some stack2 =>
                simp only [hk2] at h
                simp only []
                rw [ih _ _ _ (by simp only [List.length_drop, hlen]) h]
            · simp only [if_neg hac] at h ⊢
              rw [ih _ _ _ (by simp only [List.length_drop, hlen]) h]
        · simp only [if_neg hnext] at h ⊢
          rw [ih _ _ _ (by simp only [List.length_drop, hlen]) h]

/-- C6: the stopping position found by `skip_to` (and by `skip_block`,
which delegates byte classification to the same suppression rules) is
unaffected by byte values occurring inside quoted-string or comment
regions of the scanned range: two equally long buffers at the same
position that differ only in bytes lying inside string-literal or
comment regions — as captured by the lockstep relations `inertAgree`
and `blockAgree`, whose only allowance for differing bytes is inside an
active literal or comment region — yield the same match offset. -/
theorem skip_scans_ignore_suppressed_bytes :
    (∀ (s1 s2 : CodeStream) (findrange : List Nat) (bofc : Bool),
        s1.pos = s2.pos →
        s1.data.length = s2.data.length →
        inertAgree findrange (s1.rest.length + 1) s1.rest s2.rest false false bofc = true →
        (s1.skip_to findrange bofc).pos = (s2.skip_to findrange bofc).pos) ∧
    (∀ (s1 s2 : CodeStream) (forc nextc : Nat) (allow_comma : Bool),
        s1.pos = s2.pos →
        s1.data.length = s2.data.length →
        blockAgree forc nextc allow_comma (s1.rest.length + 1) s1.rest s2.rest 0 = true →
        (s1.skip_block forc nextc allow_comma).pos
          = (s2.skip_block forc nextc allow_comma).pos) := by
  constructor
  · intro s1 s2 findrange bofc hpos hlen hag
    have hrl : s1.rest.length = s2.rest.length := by
      simp only [CodeStream.rest, List.length_drop, hpos, hlen]
    have h1 : skipToCount findrange (s1.rest.length + 1) s1.rest false false bofc
        = skipToCount findrange (s2.rest.length + 1) s2.rest false false bofc := by
      rw [← hrl]
      exact skipToCount_congr findrange _ _ _ _ _ _ hag
    simp only [CodeStream.skip_to]
    rw [hpos, h1]
  · intro s1 s2 forc nextc allow_comma hpos hlen hag
    have hrl : s1.rest.length = s2.rest.length := by
      simp only [CodeStream.rest, List.length_drop, hpos, hlen]
    have h1 : skipBlockCount forc nextc allow_comma (s1.rest.length + 1) s1.rest 0
        = skipBlockCount forc nextc allow_comma (s2.rest.length + 1) s2.rest 0 := by
      rw [← hrl]
      exact skipBlockCount_congr forc nextc allow_comma _ _ _ _ hrl hag
    simp only [CodeStream.skip_block]
    rw [hpos, h1]

/-- Witness for C6 at concrete buffers: the byte 65 (`A`) inside the
quoted string of `"A":NEXT` replaced by the FOR token 130 (and, for the
`skip_to` part, the same pair of buffers) leaves both match offsets
unchanged. -/
theorem skip_scans_ignore_suppressed_bytes_witness :
    (({ data := [34, 65, 34, 58, 131, 0, 0], pos := 0 } : CodeStream).skip_to
        END_STATEMENT true).pos
      = (({ data := [34, 130, 34, 58, 131, 0, 0], pos := 0 } : CodeStream).skip_to
        END_STATEMENT true).pos
    ∧ (({ data := [34, 65, 34, 58, 131, 0, 0], pos := 0 } : CodeStream).skip_block
        tok_FOR tok_NEXT true).pos
      = (({ data := [34, 130, 34, 58, 131, 0, 0], pos := 0 } : CodeStream).skip_block
        tok_FOR tok_NEXT true).pos :=
  ⟨skip_scans_ignore_suppressed_bytes.1 ⟨[34, 65, 34, 58, 131, 0, 0], 0⟩
      ⟨[34, 130, 34, 58, 131, 0, 0], 0⟩ END_STATEMENT true rfl (by decide) (by decide),
    skip_scans_ignore_suppressed_bytes.2 ⟨[34, 65, 34, 58, 131, 0, 0], 0⟩
      ⟨[34, 130, 34, 58, 131, 0, 0], 0⟩ tok_FOR tok_NEXT true rfl (by decide) (by decide)⟩

end PCBasic
